import Mathlib

/-!
Verification of the Minesweeper game engine: a shallow embedding of the
core game logic (`models.py`, `constants.py`, `game_logic.py`, `utils.py`)
together with proofs of the specified properties.

Modelling conventions:
* Python `int` values are embedded as `Int` (no overflow in Python).
* The mutable `grid` (a rows x cols list of `Cell` objects) is embedded as a
  total function `Position → Cell`; every access in the source is guarded by a
  bounds check, so only in-bounds points are ever read or written.
* Python exceptions (`GameLogicError`, and the `ValueError` that
  `random.sample` raises on a negative sample size) become an `Except` result.
  Every raise in the source happens before any mutation on that code path, so
  an `error` result leaves the (functional) state unchanged.
* `random.sample(available, k)` is embedded by passing the chosen sample list
  as an explicit argument; theorems that depend on the sample assume exactly
  the postcondition `random.sample` guarantees (no duplicates, members drawn
  from `available`).
* The breadth-first search of `_reveal_empty_area` uses an explicit fuel
  bounded by the grid size; `1 + 9 * rows * cols` dequeue steps are provably
  enough (each dequeue removes one queue entry; at most `rows * cols` reveals
  each add at most 8 entries).
-/

namespace Minesweeper

set_option maxRecDepth 8000

/-- Mine sentinel value, from `constants.py` (`MINE_VALUE = -1`). -/
def MINE_VALUE : Int := -1

/-- Empty-cell value, from `constants.py` (`EMPTY_CELL = 0`). -/
def EMPTY_CELL : Int := 0

/-- Cell visibility states, from `models.py` (`CellState`). -/
inductive CellState where
  | Hidden
  | Revealed
  | Flagged
deriving DecidableEq, Repr

/-- Game states, from `models.py` (`GameState`). -/
inductive GameState where
  | Playing
  | Won
  | Lost
deriving DecidableEq, Repr

/-- A single grid cell, from `models.py` (`Cell`): a `value` (adjacent-mine
count, or `MINE_VALUE` for a mine) and a visibility `state`. -/
structure Cell where
  value : Int := 0
  state : CellState := CellState.Hidden
deriving DecidableEq, Repr

/-- `Cell.is_mine` property from `models.py`. -/
def Cell.is_mine (c : Cell) : Prop := c.value = MINE_VALUE

instance (c : Cell) : Decidable c.is_mine := by unfold Cell.is_mine; infer_instance

/-- `Cell.is_revealed` property from `models.py`. -/
def Cell.is_revealed (c : Cell) : Prop := c.state = CellState.Revealed

instance (c : Cell) : Decidable c.is_revealed := by unfold Cell.is_revealed; infer_instance

/-- `Cell.is_flagged` property from `models.py`. -/
def Cell.is_flagged (c : Cell) : Prop := c.state = CellState.Flagged

instance (c : Cell) : Decidable c.is_flagged := by unfold Cell.is_flagged; infer_instance

/-- `Cell.is_hidden` property from `models.py`. -/
def Cell.is_hidden (c : Cell) : Prop := c.state = CellState.Hidden

instance (c : Cell) : Decidable c.is_hidden := by unfold Cell.is_hidden; infer_instance

/-- `Cell.reveal` from `models.py`: set the state to `Revealed` unless the
cell is currently `Flagged` (flagged cells are left untouched). -/
def Cell.reveal (c : Cell) : Cell :=
  if c.state ≠ CellState.Flagged then { c with state := CellState.Revealed } else c

/-- `Cell.toggle_flag` from `models.py`: `Hidden ↦ Flagged`,
`Flagged ↦ Hidden`, `Revealed` unchanged. -/
def Cell.toggle_flag (c : Cell) : Cell :=
  if c.state = CellState.Hidden then { c with state := CellState.Flagged }
  else if c.state = CellState.Flagged then { c with state := CellState.Hidden }
  else c

/-- A grid position, from `models.py` (`Position`). Coordinates are `Int`
because callers may pass negative coordinates (caught by bounds checks). -/
structure Position where
  row : Int
  col : Int
deriving DecidableEq, Repr

/-- The eight `(dr, dc)` offsets produced by the nested
`for dr in [-1, 0, 1]: for dc in [-1, 0, 1]` loops of
`Position.get_neighbors` in `models.py`, skipping `(0, 0)`, in loop order. -/
def neighborOffsets : List (Int × Int) :=
  [(-1, -1), (-1, 0), (-1, 1), (0, -1), (0, 1), (1, -1), (1, 0), (1, 1)]

/-- `Position.get_neighbors` from `models.py`: the up-to-8 positions at
Chebyshev distance 1 whose coordinates lie inside `[0, max_row) x [0, max_col)`,
in the source's loop order. -/
def Position.get_neighbors (p : Position) (max_row max_col : Int) : List Position :=
  (neighborOffsets.map (fun o => Position.mk (p.row + o.1) (p.col + o.2))).filter
    (fun q => decide (0 ≤ q.row ∧ q.row < max_row ∧ 0 ≤ q.col ∧ q.col < max_col))

/-- Game configuration, from `constants.py` (`GameConfig`). -/
structure GameConfig where
  rows : Int
  cols : Int
  mines : Int
deriving DecidableEq, Repr

/-- Game statistics, from `models.py` (`GameStats`). -/
structure GameStats where
  remaining_mines : Int
  revealed_cells : Int
  total_cells : Int
  flagged_cells : Int
deriving DecidableEq, Repr

/-- The exceptions the engine can raise: `GameLogicError` for an invalid
position, `GameLogicError` for insufficient mine-placement space, and the
`ValueError` raised by `random.sample` when the sample size is negative. -/
inductive GameLogicError where
  | invalidPosition
  | notEnoughSpace
  | sampleValueError
deriving DecidableEq, Repr

/-- The engine state, from `game_logic.py` (`MinesweeperGame`). -/
structure MinesweeperGame where
  config : GameConfig
  grid : Position → Cell
  game_state : GameState
  first_click : Bool
  stats : GameStats

/-- `MinesweeperGame.__init__` plus `_initialize_grid`: fresh all-hidden
all-zero grid, `Playing`, first click pending, counters initialized. -/
def mkGame (cfg : GameConfig) : MinesweeperGame :=
  { config := cfg
    grid := fun _ => {}
    game_state := GameState.Playing
    first_click := true
    stats :=
      { remaining_mines := cfg.mines
        revealed_cells := 0
        total_cells := cfg.rows * cfg.cols
        flagged_cells := 0 } }

/-- Point update of the grid function (a single `self.grid[r][c]` mutation). -/
def updateGrid (grid : Position → Cell) (p : Position) (c : Cell) : Position → Cell :=
  fun q => if q = p then c else grid q

/-- `MinesweeperGame._is_valid_position`. -/
def is_valid_position (cfg : GameConfig) (p : Position) : Prop :=
  0 ≤ p.row ∧ p.row < cfg.rows ∧ 0 ≤ p.col ∧ p.col < cfg.cols

instance (cfg : GameConfig) (p : Position) : Decidable (is_valid_position cfg p) := by
  unfold is_valid_position; infer_instance

/-- All grid positions in row-major order, as produced by the nested
`for row in range(rows): for col in range(cols)` loops of the source. -/
def positionsList (cfg : GameConfig) : List Position :=
  (List.range cfg.rows.toNat).flatMap fun (r : Nat) =>
    (List.range cfg.cols.toNat).map fun (c : Nat) => Position.mk (r : Int) (c : Int)

/-- The set of in-bounds positions, as a `Finset` (used for counting). -/
def posFinset (cfg : GameConfig) : Finset Position :=
  (Finset.range cfg.rows.toNat ×ˢ Finset.range cfg.cols.toNat).map
    ⟨fun rc => Position.mk (rc.1 : Int) (rc.2 : Int), by
      intro a b h
      cases a; cases b
      simp only [Position.mk.injEq, Int.natCast_inj] at h
      exact Prod.ext h.1 h.2⟩

/-- The candidate list `available_positions` computed by `_place_mines`:
all grid positions except the first-clicked position and its neighbors. -/
def availablePositions (cfg : GameConfig) (exclude_pos : Position) : List Position :=
  (positionsList cfg).filter
    (fun p => decide (¬ (p = exclude_pos ∨
      p ∈ exclude_pos.get_neighbors cfg.rows cfg.cols)))

/-- One iteration of `_update_adjacent_counts`: increment the neighbor's
count unless it is itself a mine. -/
def bumpStep (gr : Position → Cell) (n : Position) : Position → Cell :=
  let c := gr n
  if c.is_mine then gr else updateGrid gr n { c with value := c.value + 1 }

/-- Body of `_update_adjacent_counts`: for each in-bounds neighbor of a placed
mine that is not itself a mine, increment its `value`. -/
def bumpNeighbors (rows cols : Int) (grid : Position → Cell) (mine_pos : Position) :
    Position → Cell :=
  (mine_pos.get_neighbors rows cols).foldl bumpStep grid

/-- Set a single cell's value to the mine sentinel
(`self.grid[pos.row][pos.col].value = MINE_VALUE`). -/
def placeMineAt (grid : Position → Cell) (p : Position) : Position → Cell :=
  updateGrid grid p { grid p with value := MINE_VALUE }

/-- The placement loop of `_place_mines`: for each selected mine position,
set the sentinel and update the adjacent counts. -/
def placeMinesList (rows cols : Int) (grid : Position → Cell) (ms : List Position) :
    Position → Cell :=
  ms.foldl (fun gr m => bumpNeighbors rows cols (placeMineAt gr m) m) grid

/-- `MinesweeperGame._place_mines`, with the result of `random.sample`
passed in as `sample`. Raises when there are fewer candidates than mines, or
(from `random.sample` itself) when the requested sample size is negative. -/
def place_mines (g : MinesweeperGame) (exclude_pos : Position) (sample : List Position) :
    Except GameLogicError MinesweeperGame :=
  let available := availablePositions g.config exclude_pos
  if (available.length : Int) < g.config.mines then .error .notEnoughSpace
  else if g.config.mines < 0 then .error .sampleValueError
  else .ok { g with grid := placeMinesList g.config.rows g.config.cols g.grid sample }

/-- Fuel that provably suffices to drain the BFS queue of
`_reveal_empty_area`: one initial dequeue plus nine per grid cell. -/
def bfsFuel (cfg : GameConfig) : Nat := 1 + 9 * (cfg.rows.toNat * cfg.cols.toNat)

/-- The `while queue:` loop of `_reveal_empty_area`, parameterized by the
queue discipline `push` (FIFO `fun q ns => q ++ ns` matches the source's
`deque.popleft` / `append`; LIFO gives a depth-first traversal used to state
order-independence). Returns the final grid, the `revealed` set and the
updated `revealed_cells` counter. -/
def revealAreaAux (rows cols : Int) (push : List Position → List Position → List Position) :
    Nat → (Position → Cell) → List Position → Finset Position → Int →
      ((Position → Cell) × Finset Position × Int)
  | 0, grid, _, revealed, cnt => (grid, revealed, cnt)
  | _ + 1, grid, [], revealed, cnt => (grid, revealed, cnt)
  | fuel + 1, grid, pos :: rest, revealed, cnt =>
    if pos ∈ revealed then revealAreaAux rows cols push fuel grid rest revealed cnt
    else
      let c := grid pos
      if c.is_revealed ∨ c.is_flagged then
        revealAreaAux rows cols push fuel grid rest revealed cnt
      else
        let grid1 := updateGrid grid pos c.reveal
        let revealed1 := insert pos revealed
        let cnt1 := cnt + 1
        if c.value = EMPTY_CELL then
          revealAreaAux rows cols push fuel grid1
            (push rest ((pos.get_neighbors rows cols).filter
              (fun n => decide (n ∉ revealed1))))
            revealed1 cnt1
        else revealAreaAux rows cols push fuel grid1 rest revealed1 cnt1

/-- `MinesweeperGame._reveal_empty_area`: BFS flood fill from `start_pos`,
revealing cells and incrementing `stats.revealed_cells`. -/
def reveal_empty_area (g : MinesweeperGame) (start_pos : Position) :
    MinesweeperGame × Finset Position :=
  let r := revealAreaAux g.config.rows g.config.cols (fun q ns => q ++ ns)
    (bfsFuel g.config) g.grid [start_pos] ∅ g.stats.revealed_cells
  ({ g with grid := r.1, stats := { g.stats with revealed_cells := r.2.2 } }, r.2.1)

/-- Flood-fill reachability: `reachZero rows cols G start p` holds when `p`
can be reached from `start` by repeatedly stepping from an in-bounds hidden
cell of value 0 to one of its neighbors (the final cell itself need not have
value 0).  This mirrors the frontier rule of `_reveal_empty_area`: the
search only expands outward from cells whose value is exactly `EMPTY_CELL`. -/
def reachZero (rows cols : Int) (G : Position → Cell) (start : Position) :
    Position → Prop :=
  Relation.ReflTransGen (fun a b =>
    (0 ≤ a.row ∧ a.row < rows ∧ 0 ≤ a.col ∧ a.col < cols) ∧
    (G a).state = CellState.Hidden ∧ (G a).value = EMPTY_CELL ∧
    b ∈ a.get_neighbors rows cols) start

/-- The same flood fill with a LIFO (depth-first) work list; used only to
state that the revealed region does not depend on the traversal order. -/
def reveal_empty_area_dfs (g : MinesweeperGame) (start_pos : Position) :
    MinesweeperGame × Finset Position :=
  let r := revealAreaAux g.config.rows g.config.cols (fun q ns => ns ++ q)
    (bfsFuel g.config) g.grid [start_pos] ∅ g.stats.revealed_cells
  ({ g with grid := r.1, stats := { g.stats with revealed_cells := r.2.2 } }, r.2.1)

/-- `MinesweeperGame._check_win_condition`: while still `Playing`, if every
cell of the grid is a mine or revealed, set the state to `Won`. -/
def check_win_condition (g : MinesweeperGame) : MinesweeperGame :=
  if g.game_state ≠ GameState.Playing then g
  else if ∀ p ∈ positionsList g.config, (g.grid p).is_mine ∨ (g.grid p).is_revealed then
    { g with game_state := GameState.Won }
  else g

/-- One iteration of the chord-click loop: if the neighbor `n` is neither
revealed nor flagged (in the current state), perform a full click on it and
accumulate the changed positions. -/
def chordStep
    (click : MinesweeperGame → Position → Except GameLogicError (MinesweeperGame × Finset Position))
    (acc : MinesweeperGame × Finset Position) (n : Position) :
    Except GameLogicError (MinesweeperGame × Finset Position) :=
  if ¬ (acc.1.grid n).is_revealed ∧ ¬ (acc.1.grid n).is_flagged then
    (click acc.1 n).map (fun r => (r.1, acc.2 ∪ r.2))
  else .ok acc

/-- `MinesweeperGame._chord_click`, with the recursive `self.left_click`
call abstracted as `click` (instantiated with the fueled `left_click`). -/
def chord_click
    (click : MinesweeperGame → Position → Except GameLogicError (MinesweeperGame × Finset Position))
    (g : MinesweeperGame) (pos : Position) :
    Except GameLogicError (MinesweeperGame × Finset Position) :=
  let c := g.grid pos
  if ¬ c.is_revealed ∨ c.value ≤ 0 then .ok (g, ∅)
  else
    let neighbors := pos.get_neighbors g.config.rows g.config.cols
    let flagged_count := (neighbors.filter (fun n => decide (g.grid n).is_flagged)).length
    if (flagged_count : Int) ≠ c.value then .ok (g, ∅)
    else
      neighbors.foldlM (chordStep click) (g, (∅ : Finset Position))

/-- The first-click block of `left_click`: on the first click, place the
mines and clear the `first_click` flag; otherwise leave the game unchanged. -/
def placeOnFirstClick (g : MinesweeperGame) (pos : Position) (sample : List Position) :
    Except GameLogicError MinesweeperGame :=
  if g.first_click then
    (place_mines g pos sample).map (fun h => { h with first_click := false })
  else .ok g

/-- One unfolding of `MinesweeperGame.left_click`, with the chord-click's
recursive call abstracted as `inner`.  Mirrors the source: bounds check,
game-over and flagged-cell no-ops, lazy mine placement on the first click,
then chord / mine / flood-fill / single-reveal branches, each followed by
the win-condition check. -/
def leftClickStep
    (inner : MinesweeperGame → Position → Except GameLogicError (MinesweeperGame × Finset Position))
    (g : MinesweeperGame) (pos : Position) (sample : List Position) :
    Except GameLogicError (MinesweeperGame × Finset Position) :=
  if ¬ is_valid_position g.config pos then .error .invalidPosition
  else if g.game_state ≠ GameState.Playing then .ok (g, ∅)
  else if (g.grid pos).is_flagged then .ok (g, ∅)
  else
    match placeOnFirstClick g pos sample with
    | .error e => .error e
    | .ok g1 =>
      if (g1.grid pos).is_revealed then chord_click inner g1 pos
      else if (g1.grid pos).is_mine then
        .ok (check_win_condition
          { g1 with grid := updateGrid g1.grid pos (g1.grid pos).reveal,
                    game_state := GameState.Lost }, {pos})
      else if (g1.grid pos).value = EMPTY_CELL then
        let r := reveal_empty_area g1 pos
        .ok (check_win_condition r.1, r.2)
      else
        .ok (check_win_condition
          { g1 with grid := updateGrid g1.grid pos (g1.grid pos).reveal,
                    stats := { g1.stats with
                      revealed_cells := g1.stats.revealed_cells + 1 } }, {pos})

/-- `MinesweeperGame.left_click` with an explicit recursion depth for the
chord-click's recursive calls.  Inside a chord, the inner click is always on
a cell that is not revealed, so the inner call never re-enters the chord
branch and any fuel of at least 2 computes the source's semantics. -/
def left_click_fuel :
    Nat → MinesweeperGame → Position → List Position →
      Except GameLogicError (MinesweeperGame × Finset Position)
  | 0, g, pos, sample => leftClickStep (fun h _ => .ok (h, ∅)) g pos sample
  | fuel + 1, g, pos, sample =>
    leftClickStep (fun h p => left_click_fuel fuel h p []) g pos sample

/-- `MinesweeperGame.left_click` (fuel 2 is exact; see `left_click_fuel`). -/
def left_click (g : MinesweeperGame) (pos : Position) (sample : List Position) :
    Except GameLogicError (MinesweeperGame × Finset Position) :=
  left_click_fuel 2 g pos sample

/-- `MinesweeperGame.right_click`: toggle a flag, updating the counters;
no-op (returning `false`) when the game is over or the cell is revealed. -/
def right_click (g : MinesweeperGame) (pos : Position) :
    Except GameLogicError (MinesweeperGame × Bool) :=
  if ¬ is_valid_position g.config pos then .error .invalidPosition
  else if g.game_state ≠ GameState.Playing then .ok (g, false)
  else if (g.grid pos).is_revealed then .ok (g, false)
  else
    let was_flagged := (g.grid pos).is_flagged
    let g1 := { g with grid := updateGrid g.grid pos (g.grid pos).toggle_flag }
    if was_flagged then
      .ok ({ g1 with stats := { g1.stats with
        remaining_mines := g1.stats.remaining_mines + 1,
        flagged_cells := g1.stats.flagged_cells - 1 } }, true)
    else
      .ok ({ g1 with stats := { g1.stats with
        remaining_mines := g1.stats.remaining_mines - 1,
        flagged_cells := g1.stats.flagged_cells + 1 } }, true)

/-- One iteration of the `reveal_all_mines` scan: if the cell at `p` is a
mine, reveal it and record its position. -/
def revealMineStep (acc : MinesweeperGame × List Position) (p : Position) :
    MinesweeperGame × List Position :=
  if (acc.1.grid p).is_mine then
    ({ acc.1 with grid := updateGrid acc.1.grid p (acc.1.grid p).reveal }, acc.2 ++ [p])
  else acc

/-- `MinesweeperGame.reveal_all_mines`: reveal every mine cell (row-major
scan) and return the list of mine positions. -/
def reveal_all_mines (g : MinesweeperGame) : MinesweeperGame × List Position :=
  (positionsList g.config).foldl revealMineStep (g, [])

/-- `MinesweeperGame.get_cell`. -/
def get_cell (g : MinesweeperGame) (pos : Position) : Except GameLogicError Cell :=
  if ¬ is_valid_position g.config pos then .error .invalidPosition
  else .ok (g.grid pos)

/-- `MinesweeperGame.is_game_over`. -/
def is_game_over (g : MinesweeperGame) : Prop :=
  g.game_state = GameState.Won ∨ g.game_state = GameState.Lost

instance (g : MinesweeperGame) : Decidable (is_game_over g) := by
  unfold is_game_over; infer_instance

/-- `MinesweeperGame.is_won`. -/
def is_won (g : MinesweeperGame) : Prop := g.game_state = GameState.Won

instance (g : MinesweeperGame) : Decidable (is_won g) := by
  unfold is_won; infer_instance

/-- `MinesweeperGame.is_lost`. -/
def is_lost (g : MinesweeperGame) : Prop := g.game_state = GameState.Lost

instance (g : MinesweeperGame) : Decidable (is_lost g) := by
  unfold is_lost; infer_instance

/-- `validate_game_config` from `utils.py`. -/
def validate_game_config (rows cols mines : Int) : Bool × String :=
  if rows ≤ 0 ∨ cols ≤ 0 then (false, "Rows and columns must be positive")
  else if mines < 0 then (false, "Number of mines cannot be negative")
  else
    let total_cells := rows * cols
    if mines ≥ total_cells then (false, "Too many mines for the grid size")
    else
      let max_mines := max 0 (total_cells - 9)
      if mines > max_mines then
        (false, "Maximum " ++ toString max_mines ++ " mines allowed for " ++
          toString rows ++ "x" ++ toString cols ++ " grid")
      else (true, "Valid configuration")

/-- External operations a caller can perform on a live engine (the
position-taking read `get_cell` never mutates and is omitted). -/
inductive Op where
  | lclick : Position → List Position → Op
  | rclick : Position → Op
  | revealAll : Op

/-- Run `left_click`, keeping the previous state if it raises (every raise
in the source happens before any mutation). -/
def stepL (g : MinesweeperGame) (pos : Position) (sample : List Position) : MinesweeperGame :=
  match left_click g pos sample with
  | .ok r => r.1
  | .error _ => g

/-- Run `right_click`, keeping the previous state if it raises. -/
def stepR (g : MinesweeperGame) (pos : Position) : MinesweeperGame :=
  match right_click g pos with
  | .ok r => r.1
  | .error _ => g

/-- Apply one external operation to the engine state. -/
def applyOp (g : MinesweeperGame) : Op → MinesweeperGame
  | .lclick pos sample => stepL g pos sample
  | .rclick pos => stepR g pos
  | .revealAll => (reveal_all_mines g).1

/-- Apply a sequence of external operations, oldest first. -/
def applyOps (g : MinesweeperGame) (ops : List Op) : MinesweeperGame :=
  ops.foldl applyOp g

/-- A 3x3 game with one mine at (2,2): the mine's cell is flagged before the
first click, then (0,0) is clicked (the flood fill skips the flagged mine).
The resulting state has a mine cell that is `Flagged`. -/
def flaggedMineGame : MinesweeperGame :=
  stepL (stepR (mkGame ⟨3, 3, 1⟩) ⟨2, 2⟩) ⟨0, 0⟩ [⟨2, 2⟩]

/-- A 3x3 game with one mine at (2,2) where the cells (0,1), (1,0) and (1,1)
were flagged before the first click at (0,0): the first flood fill is walled
in by the flags and reveals only (0,0), so the game is still `Playing` with
the zero-valued cell (2,0) hidden. -/
def partialFloodGame : MinesweeperGame :=
  stepL (stepR (stepR (stepR (mkGame ⟨3, 3, 1⟩) ⟨0, 1⟩) ⟨1, 0⟩) ⟨1, 1⟩) ⟨0, 0⟩ [⟨2, 2⟩]

/-! ### Statistics bookkeeping predicates (claim C10) -/

/-- The number of in-bounds cells whose state is `Flagged`. -/
def flaggedCount (g : MinesweeperGame) : Int :=
  (((posFinset g.config).filter (fun p => (g.grid p).is_flagged)).card : Int)

/-- The number of in-bounds cells that are `Revealed` and are not mines. -/
def revealedSafeCount (g : MinesweeperGame) : Int :=
  (((posFinset g.config).filter
    (fun p => (g.grid p).is_revealed ∧ ¬ (g.grid p).is_mine)).card : Int)

/-- The number of mine cells among the in-bounds neighbors of `p`. -/
def mineNeighborCount (g : MinesweeperGame) (p : Position) : Int :=
  (((p.get_neighbors g.config.rows g.config.cols).filter
    (fun q => decide (g.grid q).is_mine)).length : Int)

/-- The statistics equations of claim C10: `flagged_cells` counts the
`Flagged` cells, `remaining_mines` is the configured mine count minus
`flagged_cells`, and `revealed_cells` counts the revealed non-mine cells. -/
def StatsConsistent (g : MinesweeperGame) : Prop :=
  g.stats.flagged_cells = flaggedCount g ∧
  g.stats.remaining_mines = g.config.mines - flaggedCount g ∧
  g.stats.revealed_cells = revealedSafeCount g

/-- Before the first click the grid holds only zero values and no cell is
revealed (flags may already have been placed by `right_click`). -/
def PreFirstClick (g : MinesweeperGame) : Prop :=
  ∀ p, (g.grid p).value = 0 ∧ ¬ (g.grid p).is_revealed

/-- After mine placement, every in-bounds non-mine cell's value is the
number of mines among its neighbors. -/
def MineConsistent (g : MinesweeperGame) : Prop :=
  ∀ p, is_valid_position g.config p → ¬ (g.grid p).is_mine →
    (g.grid p).value = mineNeighborCount g p

/-- The reachable-state invariant behind claim C10. -/
def EngineInv (g : MinesweeperGame) : Prop :=
  StatsConsistent g ∧
  (g.first_click = true → PreFirstClick g) ∧
  (g.first_click = false → MineConsistent g)

/-- The guarantee `random.sample(available, k)` gives about its result:
pairwise-distinct elements drawn from the candidate list. -/
def SampleOK (g : MinesweeperGame) (pos : Position) (sample : List Position) : Prop :=
  sample.Nodup ∧ ∀ m ∈ sample, m ∈ availablePositions g.config pos

instance (g : MinesweeperGame) (pos : Position) (sample : List Position) :
    Decidable (SampleOK g pos sample) := by
  unfold SampleOK
  infer_instance

/-- Every `left_click` of an operation sequence receives a mine sample with
the properties `random.sample` guarantees at that point of the run. -/
def OpsOK : MinesweeperGame → List Op → Prop
  | _, [] => True
  | g, Op.lclick pos sample :: ops =>
    SampleOK g pos sample ∧ OpsOK (stepL g pos sample) ops
  | g, Op.rclick pos :: ops => OpsOK (stepR g pos) ops
  | g, Op.revealAll :: ops => OpsOK (reveal_all_mines g).1 ops

/-- A short run on a 3x3 board: flag the mine square, open a corner (which
places the mine at (2,2) and wins), then reveal all mines. -/
def statsOps : List Op :=
  [Op.rclick ⟨2, 2⟩, Op.lclick ⟨0, 0⟩ [⟨2, 2⟩], Op.revealAll]

/-! ### Basic lemmas about cells, neighbors and position enumerations -/

@[simp] lemma Position.row_mk (a b : Int) : (Position.mk a b).row = a := rfl

@[simp] lemma Position.col_mk (a b : Int) : (Position.mk a b).col = b := rfl

lemma Cell.hidden_iff_not_revealed_not_flagged (c : Cell) :
    c.state = CellState.Hidden ↔ ¬ c.is_revealed ∧ ¬ c.is_flagged := by
  cases h : c.state <;> simp [Cell.is_revealed, Cell.is_flagged, h]

@[simp] lemma Cell.reveal_value (c : Cell) : c.reveal.value = c.value := by
  unfold Cell.reveal; split <;> rfl

lemma Cell.reveal_state (c : Cell) :
    c.reveal.state = if c.state = CellState.Flagged then c.state else CellState.Revealed := by
  unfold Cell.reveal
  by_cases h : c.state = CellState.Flagged <;> simp [h]

@[simp] lemma Cell.toggle_flag_value (c : Cell) : c.toggle_flag.value = c.value := by
  unfold Cell.toggle_flag; split <;> [rfl; split <;> rfl]

@[simp] lemma updateGrid_self (grid : Position → Cell) (p : Position) (c : Cell) :
    updateGrid grid p c p = c := by simp [updateGrid]

lemma updateGrid_ne (grid : Position → Cell) (p q : Position) (c : Cell) (h : q ≠ p) :
    updateGrid grid p c q = grid q := by simp [updateGrid, h]

lemma updateGrid_apply (grid : Position → Cell) (p q : Position) (c : Cell) :
    updateGrid grid p c q = if q = p then c else grid q := rfl

/-- Membership characterization of `Position.get_neighbors`: the in-bounds
positions at Chebyshev distance exactly 1. -/
lemma mem_get_neighbors {p q : Position} {R C : Int} :
    q ∈ p.get_neighbors R C ↔
      (0 ≤ q.row ∧ q.row < R ∧ 0 ≤ q.col ∧ q.col < C) ∧
      ¬ (q.row = p.row ∧ q.col = p.col) ∧
      q.row - p.row ≤ 1 ∧ p.row - q.row ≤ 1 ∧ q.col - p.col ≤ 1 ∧ p.col - q.col ≤ 1 := by
  unfold Position.get_neighbors neighborOffsets
  simp only [List.mem_filter, List.mem_map, List.mem_cons, List.not_mem_nil, or_false,
    decide_eq_true_eq]
  constructor
  · rintro ⟨⟨⟨o1, o2⟩, ho, rfl⟩, hb⟩
    simp only [Prod.mk.injEq] at ho
    simp only at hb ⊢
    omega
  · rintro ⟨hb, hne, h1, h2, h3, h4⟩
    refine ⟨⟨(q.row - p.row, q.col - p.col), ?_, ?_⟩, hb⟩
    · simp only [Prod.mk.injEq]
      omega
    · cases q
      simp only [Position.mk.injEq]
      omega

lemma valid_of_mem_get_neighbors {p q : Position} {R C : Int}
    (h : q ∈ p.get_neighbors R C) :
    0 ≤ q.row ∧ q.row < R ∧ 0 ≤ q.col ∧ q.col < C :=
  (mem_get_neighbors.1 h).1

lemma ne_of_mem_get_neighbors {p q : Position} {R C : Int}
    (h : q ∈ p.get_neighbors R C) : q ≠ p := by
  intro hqp
  exact (mem_get_neighbors.1 h).2.1 (by subst hqp; exact ⟨rfl, rfl⟩)

/-- Neighborhood is symmetric between two in-bounds positions. -/
lemma mem_get_neighbors_symm {p q : Position} {R C : Int}
    (hp : 0 ≤ p.row ∧ p.row < R ∧ 0 ≤ p.col ∧ p.col < C)
    (hq : 0 ≤ q.row ∧ q.row < R ∧ 0 ≤ q.col ∧ q.col < C) :
    q ∈ p.get_neighbors R C ↔ p ∈ q.get_neighbors R C := by
  simp only [mem_get_neighbors]
  omega

lemma get_neighbors_nodup (p : Position) (R C : Int) :
    (p.get_neighbors R C).Nodup := by
  unfold Position.get_neighbors
  apply List.Nodup.filter
  apply List.Nodup.map
  · intro a b hab
    simp only [Position.mk.injEq] at hab
    exact Prod.ext (by omega) (by omega)
  · unfold neighborOffsets
    decide

lemma get_neighbors_length_le (p : Position) (R C : Int) :
    (p.get_neighbors R C).length ≤ 8 := by
  unfold Position.get_neighbors
  calc _ ≤ (neighborOffsets.map
      (fun o => Position.mk (p.row + o.1) (p.col + o.2))).length := List.length_filter_le _ _
    _ = 8 := by unfold neighborOffsets; simp

lemma mem_positionsList {cfg : GameConfig} {p : Position} :
    p ∈ positionsList cfg ↔ is_valid_position cfg p := by
  unfold positionsList is_valid_position
  constructor
  · intro h
    obtain ⟨r, hr, hpm⟩ := List.mem_flatMap.1 h
    obtain ⟨c, hc, rfl⟩ := List.mem_map.1 hpm
    rw [List.mem_range] at hr hc
    refine ⟨?_, ?_, ?_, ?_⟩ <;> simp only [Position.row_mk, Position.col_mk] <;> omega
  · rintro ⟨h1, h2, h3, h4⟩
    obtain ⟨pr, pc⟩ := p
    simp only [Position.row_mk, Position.col_mk] at h1 h2 h3 h4
    refine List.mem_flatMap.2 ⟨pr.toNat, List.mem_range.2 (by omega), ?_⟩
    refine List.mem_map.2 ⟨pc.toNat, List.mem_range.2 (by omega), ?_⟩
    simp only [Position.mk.injEq]
    omega

lemma mem_posFinset {cfg : GameConfig} {p : Position} :
    p ∈ posFinset cfg ↔ is_valid_position cfg p := by
  unfold posFinset is_valid_position
  simp only [Finset.mem_map, Finset.mem_product, Finset.mem_range, Function.Embedding.coeFn_mk]
  constructor
  · rintro ⟨⟨r, c⟩, ⟨hr, hc⟩, rfl⟩
    refine ⟨?_, ?_, ?_, ?_⟩ <;> simp only [Position.row_mk, Position.col_mk] <;> omega
  · rintro ⟨h1, h2, h3, h4⟩
    obtain ⟨pr, pc⟩ := p
    simp only [Position.row_mk, Position.col_mk] at h1 h2 h3 h4
    refine ⟨(pr.toNat, pc.toNat), ⟨by omega, by omega⟩, ?_⟩
    simp only [Position.mk.injEq]
    omega

lemma card_posFinset (cfg : GameConfig) :
    (posFinset cfg).card = cfg.rows.toNat * cfg.cols.toNat := by
  unfold posFinset
  rw [Finset.card_map, Finset.card_product, Finset.card_range, Finset.card_range]

lemma valid_of_mem_availablePositions {cfg : GameConfig} {e p : Position}
    (h : p ∈ availablePositions cfg e) : is_valid_position cfg p := by
  unfold availablePositions at h
  exact mem_positionsList.1 (List.mem_of_mem_filter h)

lemma mem_availablePositions {cfg : GameConfig} {e p : Position} :
    p ∈ availablePositions cfg e ↔
      is_valid_position cfg p ∧ ¬ (p = e ∨ p ∈ e.get_neighbors cfg.rows cfg.cols) := by
  unfold availablePositions
  simp only [List.mem_filter, decide_eq_true_eq, mem_positionsList]

@[simp] lemma Cell.is_mine_reveal (c : Cell) : c.reveal.is_mine ↔ c.is_mine := by
  unfold Cell.is_mine
  rw [Cell.reveal_value]

lemma Cell.reveal_reveal (c : Cell) : c.reveal.reveal = c.reveal := by
  unfold Cell.reveal
  by_cases h : c.state = CellState.Flagged <;> simp [h]

/-! ### A generic invariant lemma for `foldlM` over `Except` -/

lemma foldlM_except_invariant {α β : Type} (f : α → β → Except GameLogicError α)
    (P : α → Prop) (E : GameLogicError → Prop) :
    ∀ (l : List β),
      (∀ a x r, x ∈ l → P a → f a x = .ok r → P r) →
      (∀ a x e, x ∈ l → P a → f a x = .error e → E e) →
      ∀ (a : α), P a →
      (∀ r, l.foldlM f a = .ok r → P r) ∧
      (∀ e, l.foldlM f a = .error e → E e) := by
  intro l
  induction l with
  | nil =>
    intro _ _ a ha
    constructor
    · intro r hr
      simp only [List.foldlM_nil, pure, Except.pure, Except.ok.injEq] at hr
      exact hr ▸ ha
    · intro e he
      simp only [List.foldlM_nil, pure, Except.pure] at he
      cases he
  | cons x xs ih =>
    intro hok herr a ha
    have hsplit : ∀ (z : Except GameLogicError α), (x :: xs).foldlM f a = z →
        (∃ e0, f a x = .error e0 ∧ z = .error e0) ∨
        (∃ a1, f a x = .ok a1 ∧ xs.foldlM f a1 = z) := by
      intro z hz
      rw [List.foldlM_cons] at hz
      cases hfx : f a x with
      | error e0 =>
        left
        refine ⟨e0, rfl, ?_⟩
        rw [hfx] at hz
        simp only [bind, Except.bind] at hz
        exact hz.symm
      | ok a1 =>
        right
        refine ⟨a1, rfl, ?_⟩
        rw [hfx] at hz
        simp only [bind, Except.bind] at hz
        exact hz
    have hok1 : ∀ a2 x2 r, x2 ∈ xs → P a2 → f a2 x2 = .ok r → P r :=
      fun a2 x2 r hm => hok a2 x2 r (List.mem_cons_of_mem x hm)
    have herr1 : ∀ a2 x2 e, x2 ∈ xs → P a2 → f a2 x2 = .error e → E e :=
      fun a2 x2 e hm => herr a2 x2 e (List.mem_cons_of_mem x hm)
    constructor
    · intro r hr
      rcases hsplit _ hr with ⟨e0, hfx, hcontra⟩ | ⟨a1, hfx, hrest⟩
      · cases hcontra
      · exact (ih hok1 herr1 a1 (hok a x a1 (List.mem_cons_self x xs) ha hfx)).1 r hrest
    · intro e he
      rcases hsplit _ he with ⟨e0, hfx, heq⟩ | ⟨a1, hfx, hrest⟩
      · cases heq
        exact herr a x e (List.mem_cons_self x xs) ha hfx
      · exact (ih hok1 herr1 a1 (hok a x a1 (List.mem_cons_self x xs) ha hfx)).2 e hrest

/-! ### Structure lemmas for the engine's elementary steps -/

lemma check_win_condition_parts (g : MinesweeperGame) :
    (check_win_condition g).config = g.config ∧
    (check_win_condition g).grid = g.grid ∧
    (check_win_condition g).stats = g.stats ∧
    (check_win_condition g).first_click = g.first_click := by
  unfold check_win_condition
  split_ifs <;> simp

lemma check_win_condition_state (g : MinesweeperGame) :
    (check_win_condition g).game_state =
      if g.game_state = GameState.Playing ∧
        (∀ p ∈ positionsList g.config, (g.grid p).is_mine ∨ (g.grid p).is_revealed)
      then GameState.Won else g.game_state := by
  unfold check_win_condition
  split_ifs with h1 h2 <;> simp_all

lemma bumpStep_state (gr : Position → Cell) (n p : Position) :
    (bumpStep gr n p).state = (gr p).state := by
  unfold bumpStep
  split_ifs with h
  · rfl
  · rw [updateGrid_apply]
    split_ifs with hp
    · subst hp; rfl
    · rfl

lemma foldl_bumpStep_state (l : List Position) :
    ∀ (gr : Position → Cell) (p : Position), ((l.foldl bumpStep gr) p).state = (gr p).state := by
  induction l with
  | nil => intro gr p; rfl
  | cons x xs ih =>
    intro gr p
    rw [List.foldl_cons, ih, bumpStep_state]

lemma placeMinesList_state (R C : Int) (grid : Position → Cell) (ms : List Position) :
    ∀ p, (placeMinesList R C grid ms p).state = (grid p).state := by
  induction ms generalizing grid with
  | nil => intro p; rfl
  | cons m rest ih =>
    intro p
    unfold placeMinesList at ih ⊢
    rw [List.foldl_cons, ih]
    unfold bumpNeighbors
    rw [foldl_bumpStep_state]
    unfold placeMineAt
    rw [updateGrid_apply]
    split_ifs with hp
    · subst hp; rfl
    · rfl

lemma place_mines_ok {g : MinesweeperGame} {e : Position} {s : List Position}
    {g1 : MinesweeperGame} (h : place_mines g e s = .ok g1) :
    g1 = { g with grid := placeMinesList g.config.rows g.config.cols g.grid s } ∧
    g.config.mines ≤ ((availablePositions g.config e).length : Int) ∧
    0 ≤ g.config.mines := by
  unfold place_mines at h
  dsimp only at h
  split_ifs at h with h1 h2
  cases h
  exact ⟨rfl, by omega, by omega⟩

lemma place_mines_error {g : MinesweeperGame} {e : Position} {s : List Position}
    {e2 : GameLogicError} (h : place_mines g e s = .error e2) :
    e2 = .notEnoughSpace ∨ e2 = .sampleValueError := by
  unfold place_mines at h
  dsimp only at h
  split_ifs at h with h1 h2
  · cases h; exact Or.inl rfl
  · cases h; exact Or.inr rfl

lemma placeOnFirstClick_ok {g : MinesweeperGame} {pos : Position} {s : List Position}
    {g1 : MinesweeperGame} (h : placeOnFirstClick g pos s = .ok g1) :
    g1.config = g.config ∧ g1.game_state = g.game_state ∧ g1.stats = g.stats ∧
    (∀ p, (g1.grid p).state = (g.grid p).state) ∧
    ((g.first_click = false ∧ g1 = g) ∨
     (g.first_click = true ∧ g1.first_click = false ∧
       g1.grid = placeMinesList g.config.rows g.config.cols g.grid s ∧
       g.config.mines ≤ ((availablePositions g.config pos).length : Int) ∧
       0 ≤ g.config.mines)) := by
  unfold placeOnFirstClick at h
  split_ifs at h with hfc
  · cases hpm : place_mines g pos s with
    | error e0 => rw [hpm] at h; cases h
    | ok g0 =>
      rw [hpm] at h
      simp only [Except.map, Except.ok.injEq] at h
      obtain ⟨hg0, hlen, hnn⟩ := place_mines_ok hpm
      subst hg0
      cases h
      refine ⟨rfl, rfl, rfl, ?_, Or.inr ⟨hfc, rfl, rfl, hlen, hnn⟩⟩
      intro p
      exact placeMinesList_state _ _ _ _ p
  · cases h
    simp only [Bool.not_eq_true] at hfc
    exact ⟨rfl, rfl, rfl, fun _ => rfl, Or.inl ⟨hfc, rfl⟩⟩

lemma placeOnFirstClick_error {g : MinesweeperGame} {pos : Position} {s : List Position}
    {e2 : GameLogicError} (h : placeOnFirstClick g pos s = .error e2) :
    g.first_click = true ∧ (e2 = .notEnoughSpace ∨ e2 = .sampleValueError) := by
  unfold placeOnFirstClick at h
  split_ifs at h with hfc
  cases hpm : place_mines g pos s with
  | error e0 =>
    rw [hpm] at h
    simp only [Except.map, Except.error.injEq] at h
    exact ⟨hfc, h ▸ place_mines_error hpm⟩
  | ok g0 => rw [hpm] at h; cases h

/-! ### `reveal_all_mines` (claim C6) -/

lemma revealMinesFold_spec (l : List Position) :
    ∀ (g : MinesweeperGame) (acc : List Position),
      (l.foldl revealMineStep (g, acc)).1.config = g.config ∧
      (l.foldl revealMineStep (g, acc)).1.game_state = g.game_state ∧
      (l.foldl revealMineStep (g, acc)).1.first_click = g.first_click ∧
      (l.foldl revealMineStep (g, acc)).1.stats = g.stats ∧
      (l.foldl revealMineStep (g, acc)).2 =
        acc ++ l.filter (fun p => decide (g.grid p).is_mine) ∧
      ∀ p, (l.foldl revealMineStep (g, acc)).1.grid p =
        if p ∈ l ∧ (g.grid p).is_mine then (g.grid p).reveal else g.grid p := by
  induction l with
  | nil => intro g acc; simp
  | cons x xs ih =>
    intro g acc
    rw [List.foldl_cons]
    by_cases hx : (g.grid x).is_mine
    · have hstep : revealMineStep (g, acc) x =
          ({ g with grid := updateGrid g.grid x (g.grid x).reveal }, acc ++ [x]) := by
        unfold revealMineStep
        simp [hx]
      rw [hstep]
      obtain ⟨ih1, ih2, ih3, ih4, ih5, ih6⟩ :=
        ih { g with grid := updateGrid g.grid x (g.grid x).reveal } (acc ++ [x])
      refine ⟨ih1, ih2, ih3, ih4, ?_, ?_⟩
      · rw [ih5, List.filter_cons]
        have hfe : xs.filter
            (fun p => decide (updateGrid g.grid x (g.grid x).reveal p).is_mine) =
            xs.filter (fun p => decide (g.grid p).is_mine) := by
          apply List.filter_congr
          intro p _
          rw [updateGrid_apply]
          by_cases hpx : p = x <;> simp [hpx, hx]
        rw [hfe]
        simp [hx]
      · intro p
        rw [ih6 p]
        dsimp only
        rw [updateGrid_apply]
        by_cases hpx : p = x
        · subst hpx
          by_cases hpxs : p ∈ xs <;>
            simp [hpxs, hx, Cell.reveal_reveal, List.mem_cons]
        · simp only [hpx, if_false]
          by_cases hpxs : p ∈ xs
          · simp [hpxs, List.mem_cons, hpx]
          · simp [hpxs, List.mem_cons, hpx]
    · have hstep : revealMineStep (g, acc) x = (g, acc) := by
        unfold revealMineStep
        simp [hx]
      rw [hstep]
      obtain ⟨ih1, ih2, ih3, ih4, ih5, ih6⟩ := ih g acc
      refine ⟨ih1, ih2, ih3, ih4, ?_, ?_⟩
      · rw [ih5, List.filter_cons]
        simp [hx]
      · intro p
        rw [ih6 p]
        by_cases hpx : p = x
        · subst hpx
          simp [hx, List.mem_cons]
        · simp [List.mem_cons, hpx]

/-- `C6` (corrected): `reveal_all_mines` leaves the game state, the
statistics, the configuration and the first-click flag unchanged, returns
the row-major list of all (in-bounds) mine positions, and reveals exactly
the mine cells — *via `Cell.reveal`*, so a `Flagged` mine cell keeps state
`Flagged` rather than becoming `Revealed`, while every non-flagged mine cell
becomes `Revealed`. -/
theorem C6_reveal_all_mines_spec (g : MinesweeperGame) :
    (reveal_all_mines g).1.config = g.config ∧
    (reveal_all_mines g).1.game_state = g.game_state ∧
    (reveal_all_mines g).1.stats = g.stats ∧
    (reveal_all_mines g).2 =
      (positionsList g.config).filter (fun p => decide (g.grid p).is_mine) ∧
    (∀ p, (reveal_all_mines g).1.grid p =
      if is_valid_position g.config p ∧ (g.grid p).is_mine
      then (g.grid p).reveal else g.grid p) ∧
    (∀ p, is_valid_position g.config p → (g.grid p).is_mine →
      ¬ (g.grid p).is_flagged →
      ((reveal_all_mines g).1.grid p).state = CellState.Revealed) ∧
    (∀ p, (g.grid p).is_flagged → ((reveal_all_mines g).1.grid p).state = CellState.Flagged) := by
  obtain ⟨h1, h2, h3, h4, h5, h6⟩ := revealMinesFold_spec (positionsList g.config) g []
  have hgrid : ∀ p, (reveal_all_mines g).1.grid p =
      if is_valid_position g.config p ∧ (g.grid p).is_mine
      then (g.grid p).reveal else g.grid p := by
    intro p
    unfold reveal_all_mines
    rw [h6 p]
    by_cases hv : is_valid_position g.config p
    · simp [mem_positionsList, hv]
    · simp [mem_positionsList, hv]
  refine ⟨h1, h2, h4, by simpa using h5, hgrid, ?_, ?_⟩
  · intro p hv hm hf
    rw [hgrid p]
    simp only [hv, hm, and_self, if_true]
    unfold Cell.reveal
    unfold Cell.is_flagged at hf
    simp [hf]
  · intro p hf
    rw [hgrid p]
    unfold Cell.is_flagged at hf
    by_cases hc : is_valid_position g.config p ∧ (g.grid p).is_mine
    · simp only [hc, if_true]
      unfold Cell.reveal
      simp [hf]
    · simp only [hc, if_false]
      exact hf

/-- `C6` counterexample to the claim as stated: in a reachable game with a
flagged mine at (2,2), `reveal_all_mines` does not set that cell's state to
`Revealed` (it stays `Flagged`). -/
theorem C6_claim_false :
    (flaggedMineGame.grid ⟨2, 2⟩).is_mine ∧
    (flaggedMineGame.grid ⟨2, 2⟩).is_flagged ∧
    ((reveal_all_mines flaggedMineGame).1.grid ⟨2, 2⟩).state ≠ CellState.Revealed := by
  decide

/-! ### `validate_game_config` (claim C7) -/

/-- `C7` (corrected): `validate_game_config rows cols mines` returns valid
exactly when `rows > 0`, `cols > 0`, `mines ≥ 0`, `mines < rows * cols` and
`mines ≤ max 0 (rows * cols - 9)` (the source clamps the 9-cell safe-zone
bound at zero, so tiny boards with 0 mines are valid); the spec's four
examples behave as stated. -/
theorem C7_validate_config (rows cols mines : Int) :
    ((validate_game_config rows cols mines).1 = true ↔
      0 < rows ∧ 0 < cols ∧ 0 ≤ mines ∧ mines < rows * cols ∧
        mines ≤ max 0 (rows * cols - 9)) ∧
    (validate_game_config 9 9 10).1 = true ∧
    (validate_game_config 0 9 10).1 = false ∧
    (validate_game_config 9 9 (-1)).1 = false ∧
    (validate_game_config 3 3 9).1 = false := by
  refine ⟨?_, by decide, by decide, by decide, by decide⟩
  unfold validate_game_config
  dsimp only
  rcases le_or_lt (rows * cols - 9) 0 with hm | hm
  · rw [max_eq_left hm]
    split_ifs <;> simp <;> omega
  · rw [max_eq_right hm.le]
    split_ifs <;> simp <;> omega

/-- `C7` counterexample to the claim as stated: `(1,1,0)` is accepted by
`validate_game_config` although `0 ≤ 1*1 - 9` fails, so "valid exactly when
... mines does not exceed rows*cols - 9" is false at `(1,1,0)`. -/
theorem C7_claim_false :
    ¬ (((validate_game_config 1 1 0).1 = true) ↔
      (0 < (1 : Int) ∧ 0 < (1 : Int) ∧ (0 : Int) ≤ 0 ∧ (0 : Int) < 1 * 1 ∧
        (0 : Int) ≤ 1 * 1 - 9)) := by
  decide

/-! ### Invariants of `chord_click` and `left_click_fuel` -/

lemma chord_click_invariant
    (click : MinesweeperGame → Position → Except GameLogicError (MinesweeperGame × Finset Position))
    (g : MinesweeperGame) (pos : Position)
    (P : MinesweeperGame → Prop) (E : GameLogicError → Prop)
    (hPconf : ∀ h, P h → h.config = g.config)
    (hok : ∀ h q r, P h → is_valid_position h.config q → click h q = .ok r → P r.1)
    (herr : ∀ h q e, P h → is_valid_position h.config q → click h q = .error e → E e)
    (hg : P g) :
    (∀ r, chord_click click g pos = .ok r → P r.1) ∧
    (∀ e, chord_click click g pos = .error e → E e) := by
  unfold chord_click
  dsimp only
  split_ifs with hc1 hc2
  · exact ⟨fun r hr => by cases hr; exact hg, fun e he => by cases he⟩
  · exact ⟨fun r hr => by cases hr; exact hg, fun e he => by cases he⟩
  · have hvalid : ∀ n, n ∈ pos.get_neighbors g.config.rows g.config.cols →
        ∀ h : MinesweeperGame, P h → is_valid_position h.config n := by
      intro n hn h hP
      rw [hPconf h hP]
      exact valid_of_mem_get_neighbors hn
    have := foldlM_except_invariant (chordStep click) (fun a => P a.1) E
      (pos.get_neighbors g.config.rows g.config.cols)
      (by
        intro a n r hn ha hstep
        unfold chordStep at hstep
        split_ifs at hstep with hguard
        · cases hcl : click a.1 n with
          | error e0 => rw [hcl] at hstep; cases hstep
          | ok r0 =>
            rw [hcl] at hstep
            simp only [Except.map, Except.ok.injEq] at hstep
            have := hok a.1 n r0 ha (hvalid n hn a.1 ha) hcl
            rw [← hstep]
            exact this
        · cases hstep; exact ha)
      (by
        intro a n e hn ha hstep
        unfold chordStep at hstep
        split_ifs at hstep with hguard
        · cases hcl : click a.1 n with
          | error e0 =>
            rw [hcl] at hstep
            simp only [Except.map, Except.error.injEq] at hstep
            exact hstep ▸ herr a.1 n e0 ha (hvalid n hn a.1 ha) hcl
          | ok r0 => rw [hcl] at hstep; cases hstep)
      (g, ∅) hg
    exact ⟨fun r hr => this.1 r hr, fun e he => this.2 e he⟩

/-- Case analysis on one unfolding of `left_click`: exactly one of the eight
source branches applies (bounds error, game-over no-op, flagged no-op,
placement failure, chord, mine loss, flood fill, single numbered reveal). -/
lemma leftClickStep_elim
    (inner : MinesweeperGame → Position → Except GameLogicError (MinesweeperGame × Finset Position))
    (g : MinesweeperGame) (pos : Position) (sample : List Position)
    {motive : Except GameLogicError (MinesweeperGame × Finset Position) → Prop}
    (hinv : ¬ is_valid_position g.config pos → motive (.error .invalidPosition))
    (hover : is_valid_position g.config pos → g.game_state ≠ GameState.Playing →
      motive (.ok (g, ∅)))
    (hflag : is_valid_position g.config pos → g.game_state = GameState.Playing →
      (g.grid pos).is_flagged → motive (.ok (g, ∅)))
    (hplerr : ∀ e, is_valid_position g.config pos → g.game_state = GameState.Playing →
      ¬ (g.grid pos).is_flagged → placeOnFirstClick g pos sample = .error e →
      motive (.error e))
    (hchord : ∀ g1, is_valid_position g.config pos → g.game_state = GameState.Playing →
      ¬ (g.grid pos).is_flagged → placeOnFirstClick g pos sample = .ok g1 →
      (g1.grid pos).is_revealed → motive (chord_click inner g1 pos))
    (hmine : ∀ g1, is_valid_position g.config pos → g.game_state = GameState.Playing →
      ¬ (g.grid pos).is_flagged → placeOnFirstClick g pos sample = .ok g1 →
      ¬ (g1.grid pos).is_revealed → (g1.grid pos).is_mine →
      motive (.ok (check_win_condition
        { g1 with grid := updateGrid g1.grid pos (g1.grid pos).reveal,
                  game_state := GameState.Lost }, {pos})))
    (hflood : ∀ g1, is_valid_position g.config pos → g.game_state = GameState.Playing →
      ¬ (g.grid pos).is_flagged → placeOnFirstClick g pos sample = .ok g1 →
      ¬ (g1.grid pos).is_revealed → ¬ (g1.grid pos).is_mine →
      (g1.grid pos).value = EMPTY_CELL →
      motive (.ok (check_win_condition (reveal_empty_area g1 pos).1,
        (reveal_empty_area g1 pos).2)))
    (hnum : ∀ g1, is_valid_position g.config pos → g.game_state = GameState.Playing →
      ¬ (g.grid pos).is_flagged → placeOnFirstClick g pos sample = .ok g1 →
      ¬ (g1.grid pos).is_revealed → ¬ (g1.grid pos).is_mine →
      (g1.grid pos).value ≠ EMPTY_CELL →
      motive (.ok (check_win_condition
        { g1 with grid := updateGrid g1.grid pos (g1.grid pos).reveal,
                  stats := { g1.stats with
                    revealed_cells := g1.stats.revealed_cells + 1 } }, {pos}))) :
    motive (leftClickStep inner g pos sample) := by
  unfold leftClickStep
  by_cases h1 : is_valid_position g.config pos
  · rw [if_neg (not_not_intro h1)]
    by_cases h2 : g.game_state = GameState.Playing
    · rw [if_neg (fun hne => hne h2)]
      by_cases h3 : (g.grid pos).is_flagged
      · rw [if_pos h3]
        exact hflag h1 h2 h3
      · rw [if_neg h3]
        cases hpl : placeOnFirstClick g pos sample with
        | error e => exact hplerr e h1 h2 h3 hpl
        | ok g1 =>
          dsimp only
          by_cases h4 : (g1.grid pos).is_revealed
          · rw [if_pos h4]
            exact hchord g1 h1 h2 h3 hpl h4
          · rw [if_neg h4]
            by_cases h5 : (g1.grid pos).is_mine
            · rw [if_pos h5]
              exact hmine g1 h1 h2 h3 hpl h4 h5
            · rw [if_neg h5]
              by_cases h6 : (g1.grid pos).value = EMPTY_CELL
              · rw [if_pos h6]
                exact hflood g1 h1 h2 h3 hpl h4 h5 h6
              · rw [if_neg h6]
                exact hnum g1 h1 h2 h3 hpl h4 h5 h6
    · rw [if_pos h2]
      exact hover h1 h2
  · rw [if_pos h1]
    exact hinv h1

lemma leftClickStep_config
    {inner : MinesweeperGame → Position → Except GameLogicError (MinesweeperGame × Finset Position)}
    (hinner : ∀ h q r, inner h q = .ok r → r.1.config = h.config) :
    ∀ g pos sample r, leftClickStep inner g pos sample = .ok r → r.1.config = g.config := by
  intro g pos sample
  refine leftClickStep_elim inner g pos sample
    (motive := fun z => ∀ r, z = .ok r → r.1.config = g.config)
    ?_ ?_ ?_ ?_ ?_ ?_ ?_ ?_
  · intro _ r h
    cases h
  · intro _ _ r h
    cases h; rfl
  · intro _ _ _ r h
    cases h; rfl
  · intro e _ _ _ _ r h
    cases h
  · intro g1 _ _ _ hpl _ r h
    have hg1 : g1.config = g.config := (placeOnFirstClick_ok hpl).1
    have := chord_click_invariant inner g1 pos
      (fun h2 => h2.config = g1.config) (fun _ => True)
      (fun h2 hh => hh)
      (fun h2 q r2 hh _ hcl => (hinner h2 q r2 hcl).trans hh)
      (fun _ _ _ _ _ _ => trivial) rfl
    exact (this.1 r h).trans hg1
  · intro g1 _ _ _ hpl _ _ r h
    cases h
    exact (check_win_condition_parts _).1.trans (placeOnFirstClick_ok hpl).1
  · intro g1 _ _ _ hpl _ _ _ r h
    cases h
    exact (check_win_condition_parts _).1.trans (placeOnFirstClick_ok hpl).1
  · intro g1 _ _ _ hpl _ _ _ r h
    cases h
    exact (check_win_condition_parts _).1.trans (placeOnFirstClick_ok hpl).1

lemma left_click_fuel_config :
    ∀ (fuel : Nat) (g : MinesweeperGame) (pos : Position) (sample : List Position) r,
      left_click_fuel fuel g pos sample = .ok r → r.1.config = g.config := by
  intro fuel
  induction fuel with
  | zero =>
    intro g pos sample r h
    exact leftClickStep_config (fun h2 q r2 hr2 => by cases hr2; rfl) g pos sample r h
  | succ n ih =>
    intro g pos sample r h
    exact leftClickStep_config (fun h2 q r2 hr2 => ih h2 q [] r2 hr2) g pos sample r h

lemma leftClickStep_no_invalid
    {inner : MinesweeperGame → Position → Except GameLogicError (MinesweeperGame × Finset Position)}
    (hconf : ∀ h q r, inner h q = .ok r → r.1.config = h.config)
    (hinner : ∀ h q, is_valid_position h.config q → inner h q ≠ .error .invalidPosition) :
    ∀ g pos sample, is_valid_position g.config pos →
      leftClickStep inner g pos sample ≠ .error .invalidPosition := by
  intro g pos sample hv
  refine leftClickStep_elim inner g pos sample
    (motive := fun z => z ≠ .error .invalidPosition) ?_ ?_ ?_ ?_ ?_ ?_ ?_ ?_
  · intro h1
    exact absurd hv h1
  · intro _ _ h
    cases h
  · intro _ _ _ h
    cases h
  · intro e _ _ _ hpl h
    cases h
    rcases (placeOnFirstClick_error hpl).2 with he | he <;> cases he
  · intro g1 _ _ _ hpl _
    have := chord_click_invariant inner g1 pos
      (fun h2 => h2.config = g1.config) (fun e => e ≠ .invalidPosition)
      (fun h2 hh => hh)
      (fun h2 q r2 hh _ hcl => (hconf h2 q r2 hcl).trans hh)
      (fun h2 q e hh hq hcl => fun heq => hinner h2 q hq (heq ▸ hcl)) rfl
    intro h
    exact this.2 _ h rfl
  · intro g1 _ _ _ _ _ _ h
    cases h
  · intro g1 _ _ _ _ _ _ _ h
    cases h
  · intro g1 _ _ _ _ _ _ _ h
    cases h

lemma left_click_fuel_no_invalid :
    ∀ (fuel : Nat) (g : MinesweeperGame) (pos : Position) (sample : List Position),
      is_valid_position g.config pos →
      left_click_fuel fuel g pos sample ≠ .error .invalidPosition := by
  intro fuel
  induction fuel with
  | zero =>
    intro g pos sample hv
    exact leftClickStep_no_invalid (fun h2 q r2 hr2 => by cases hr2; rfl)
      (fun h2 q _ he => by cases he) g pos sample hv
  | succ n ih =>
    intro g pos sample hv
    exact leftClickStep_no_invalid (fun h2 q r2 hr2 => left_click_fuel_config n h2 q [] r2 hr2)
      (fun h2 q hq => ih h2 q [] hq) g pos sample hv

lemma left_click_invalid {g : MinesweeperGame} {pos : Position} {sample : List Position}
    (h : ¬ is_valid_position g.config pos) :
    left_click g pos sample = .error .invalidPosition := by
  unfold left_click left_click_fuel leftClickStep
  simp [h]

lemma right_click_invalid {g : MinesweeperGame} {pos : Position}
    (h : ¬ is_valid_position g.config pos) :
    right_click g pos = .error .invalidPosition := by
  unfold right_click
  simp [h]

lemma right_click_never_invalid {g : MinesweeperGame} {pos : Position}
    (h : is_valid_position g.config pos) :
    ∃ b, right_click g pos = .ok b := by
  unfold right_click
  rw [if_neg (not_not_intro h)]
  dsimp only
  split_ifs <;> exact ⟨_, rfl⟩

/-- `C9`: every out-of-bounds position makes `left_click`, `right_click` and
`get_cell` raise the invalid-position error with the engine state untouched,
while in-bounds positions never raise that error (for `left_click` the only
possible errors are the two mine-placement failures, never invalid-position;
`right_click` and `get_cell` always succeed in bounds). -/
theorem C9_invalid_position (g : MinesweeperGame) (pos : Position) (sample : List Position) :
    (¬ is_valid_position g.config pos →
      left_click g pos sample = .error .invalidPosition ∧
      right_click g pos = .error .invalidPosition ∧
      get_cell g pos = .error .invalidPosition ∧
      stepL g pos sample = g ∧ stepR g pos = g) ∧
    (is_valid_position g.config pos →
      left_click g pos sample ≠ .error .invalidPosition ∧
      (∃ b, right_click g pos = .ok b) ∧
      get_cell g pos = .ok (g.grid pos)) := by
  constructor
  · intro hv
    refine ⟨left_click_invalid hv, right_click_invalid hv, ?_, ?_, ?_⟩
    · unfold get_cell; simp [hv]
    · unfold stepL; rw [left_click_invalid hv]
    · unfold stepR; rw [right_click_invalid hv]
  · intro hv
    refine ⟨left_click_fuel_no_invalid 2 g pos sample hv, right_click_never_invalid hv, ?_⟩
    unfold get_cell
    simp [hv]

/-! ### Game-over and no-op behavior (claim C8) -/

lemma left_click_not_playing {g : MinesweeperGame} {pos : Position} {sample : List Position}
    (h : g.game_state ≠ GameState.Playing) :
    left_click g pos sample = .error .invalidPosition ∨
    left_click g pos sample = .ok (g, ∅) := by
  unfold left_click left_click_fuel leftClickStep
  by_cases h1 : is_valid_position g.config pos
  · rw [if_neg (not_not_intro h1), if_pos h]
    right; rfl
  · rw [if_pos h1]
    left; rfl

lemma left_click_not_playing_valid {g : MinesweeperGame} {pos : Position} {sample : List Position}
    (h : g.game_state ≠ GameState.Playing) (hv : is_valid_position g.config pos) :
    left_click g pos sample = .ok (g, ∅) := by
  unfold left_click left_click_fuel leftClickStep
  rw [if_neg (not_not_intro hv), if_pos h]

lemma left_click_flagged {g : MinesweeperGame} {pos : Position} {sample : List Position}
    (hv : is_valid_position g.config pos) (hp : g.game_state = GameState.Playing)
    (hf : (g.grid pos).is_flagged) :
    left_click g pos sample = .ok (g, ∅) := by
  unfold left_click left_click_fuel leftClickStep
  rw [if_neg (not_not_intro hv), if_neg (fun hne => hne hp), if_pos hf]

lemma right_click_not_playing {g : MinesweeperGame} {pos : Position}
    (h : g.game_state ≠ GameState.Playing) :
    right_click g pos = .error .invalidPosition ∨ right_click g pos = .ok (g, false) := by
  unfold right_click
  by_cases h1 : is_valid_position g.config pos
  · rw [if_neg (not_not_intro h1), if_pos h]
    right; rfl
  · rw [if_pos h1]
    left; rfl

lemma right_click_not_playing_valid {g : MinesweeperGame} {pos : Position}
    (h : g.game_state ≠ GameState.Playing) (hv : is_valid_position g.config pos) :
    right_click g pos = .ok (g, false) := by
  unfold right_click
  rw [if_neg (not_not_intro hv), if_pos h]

lemma right_click_revealed {g : MinesweeperGame} {pos : Position}
    (hv : is_valid_position g.config pos) (hr : (g.grid pos).is_revealed) :
    right_click g pos = .ok (g, false) := by
  unfold right_click
  rw [if_neg (not_not_intro hv)]
  by_cases h : g.game_state ≠ GameState.Playing
  · rw [if_pos h]
  · rw [if_neg h, if_pos hr]

lemma applyOp_state_of_terminal (g : MinesweeperGame) (op : Op)
    (h : g.game_state ≠ GameState.Playing) :
    (applyOp g op).game_state = g.game_state := by
  cases op with
  | lclick pos sample =>
    show (stepL g pos sample).game_state = g.game_state
    unfold stepL
    rcases @left_click_not_playing g pos sample h with hc | hc <;> rw [hc]
  | rclick pos =>
    show (stepR g pos).game_state = g.game_state
    unfold stepR
    rcases @right_click_not_playing g pos h with hc | hc <;> rw [hc]
  | revealAll =>
    exact (revealMinesFold_spec (positionsList g.config) g []).2.1

lemma applyOps_state_of_terminal (ops : List Op) :
    ∀ g : MinesweeperGame, g.game_state ≠ GameState.Playing →
      (applyOps g ops).game_state = g.game_state := by
  induction ops with
  | nil => intro g _; rfl
  | cons op rest ih =>
    intro g h
    show (applyOps (applyOp g op) rest).game_state = g.game_state
    have h1 := applyOp_state_of_terminal g op h
    rw [ih (applyOp g op) (by rw [h1]; exact h), h1]

/-- `C8`: a terminal game state is absorbing — any sequence of operations
leaves a `Won`/`Lost` state unchanged, and while the game is not `Playing`,
`left_click` returns the empty set and `right_click` returns `false` with the
game unchanged; likewise `left_click` on a flagged cell and `right_click` on
a revealed cell are silent no-ops, not errors. -/
theorem C8_terminal_and_noop (g : MinesweeperGame) (pos : Position)
    (sample : List Position) (ops : List Op) :
    (g.game_state ≠ GameState.Playing → (applyOps g ops).game_state = g.game_state) ∧
    (g.game_state ≠ GameState.Playing → is_valid_position g.config pos →
      left_click g pos sample = .ok (g, ∅) ∧ right_click g pos = .ok (g, false)) ∧
    (g.game_state = GameState.Playing → is_valid_position g.config pos →
      (g.grid pos).is_flagged → left_click g pos sample = .ok (g, ∅)) ∧
    (is_valid_position g.config pos → (g.grid pos).is_revealed →
      right_click g pos = .ok (g, false)) := by
  refine ⟨fun h => applyOps_state_of_terminal ops g h, fun h hv => ?_, ?_, ?_⟩
  · exact ⟨left_click_not_playing_valid h hv, right_click_not_playing_valid h hv⟩
  · intro hp hv hf
    exact left_click_flagged hv hp hf
  · intro hv hr
    exact right_click_revealed hv hr

/-! ### Mine placement: the exact value of every cell after the loop (C1, C2) -/

lemma filter_mem_cons_length (m : Position) (ms : List Position) (hm : m ∉ ms) :
    ∀ (l : List Position), l.Nodup →
      (l.filter (fun q => decide (q ∈ m :: ms))).length =
      (l.filter (fun q => decide (q ∈ ms))).length + (if m ∈ l then 1 else 0) := by
  intro l
  induction l with
  | nil => intro _; simp
  | cons x xs ih =>
    intro hnd
    obtain ⟨hx, hnd2⟩ := List.nodup_cons.1 hnd
    have ihx := ih hnd2
    by_cases hxm : x = m
    · subst hxm
      have e1 : List.filter (fun q => decide (q ∈ x :: ms)) (x :: xs) =
          x :: List.filter (fun q => decide (q ∈ x :: ms)) xs := by
        rw [List.filter_cons, if_pos (by simp)]
      have e2 : List.filter (fun q => decide (q ∈ ms)) (x :: xs) =
          List.filter (fun q => decide (q ∈ ms)) xs := by
        rw [List.filter_cons, if_neg (by simp [hm])]
      rw [e1, e2, List.length_cons, ihx, if_pos (List.mem_cons_self x xs), if_neg hx]
    · have hmx : ¬ m = x := fun h => hxm h.symm
      have e3 : (if m ∈ x :: xs then 1 else 0) = (if m ∈ xs then 1 else 0) := by
        by_cases hmxs : m ∈ xs
        · rw [if_pos hmxs, if_pos (List.mem_cons_of_mem x hmxs)]
        · rw [if_neg hmxs, if_neg (by simp [List.mem_cons, hmx, hmxs])]
      by_cases hxs : x ∈ ms
      · have e1 : List.filter (fun q => decide (q ∈ m :: ms)) (x :: xs) =
            x :: List.filter (fun q => decide (q ∈ m :: ms)) xs := by
          rw [List.filter_cons, if_pos (by simp [List.mem_cons, hxs])]
        have e2 : List.filter (fun q => decide (q ∈ ms)) (x :: xs) =
            x :: List.filter (fun q => decide (q ∈ ms)) xs := by
          rw [List.filter_cons, if_pos (by simp [hxs])]
        rw [e1, e2, e3, List.length_cons, List.length_cons, ihx]
        omega
      · have e1 : List.filter (fun q => decide (q ∈ m :: ms)) (x :: xs) =
            List.filter (fun q => decide (q ∈ m :: ms)) xs := by
          rw [List.filter_cons, if_neg (by simp [List.mem_cons, hxm, hxs])]
        have e2 : List.filter (fun q => decide (q ∈ ms)) (x :: xs) =
            List.filter (fun q => decide (q ∈ ms)) xs := by
          rw [List.filter_cons, if_neg (by simp [hxs])]
        rw [e1, e2, e3, ihx]

lemma bumpStep_apply (gr : Position → Cell) (n p : Position) :
    bumpStep gr n p =
      if p = n ∧ ¬ (gr n).is_mine then { gr n with value := (gr n).value + 1 } else gr p := by
  unfold bumpStep
  dsimp only
  by_cases h1 : (gr n).is_mine
  · rw [if_pos h1, if_neg (fun hc => hc.2 h1)]
  · rw [if_neg h1, updateGrid_apply]
    by_cases h2 : p = n
    · rw [if_pos h2, if_pos ⟨h2, h1⟩]
    · rw [if_neg h2, if_neg (fun hc => h2 hc.1)]

lemma foldl_bumpStep_apply :
    ∀ (l : List Position), l.Nodup →
      ∀ (gr : Position → Cell) (p : Position),
      (l.foldl bumpStep gr) p =
        if p ∈ l ∧ ¬ (gr p).is_mine then { gr p with value := (gr p).value + 1 } else gr p := by
  intro l
  induction l with
  | nil =>
    intro _ gr p
    simp
  | cons x xs ih =>
    intro hnd gr p
    obtain ⟨hx, hnd2⟩ := List.nodup_cons.1 hnd
    rw [List.foldl_cons, ih hnd2, bumpStep_apply gr x p]
    by_cases h2 : p = x <;> by_cases h1 : (gr x).is_mine <;>
      by_cases h3 : p ∈ xs <;>
      simp_all [List.mem_cons]

lemma valid_of_mem_get_neighbors_cfg {cfg : GameConfig} {p q : Position}
    (h : q ∈ p.get_neighbors cfg.rows cfg.cols) : is_valid_position cfg q :=
  valid_of_mem_get_neighbors h

lemma placeMinesList_cons (R C : Int) (grid : Position → Cell) (m : Position)
    (rest : List Position) :
    placeMinesList R C grid (m :: rest) =
      placeMinesList R C (bumpNeighbors R C (placeMineAt grid m) m) rest := by
  unfold placeMinesList
  rw [List.foldl_cons]

/-- The exact final value of every cell after the `_place_mines` loop runs
over the mine list `ms` (no duplicates, all in bounds): each listed cell gets
the sentinel, each cell that already carried the sentinel keeps it, and every
other cell gains one per listed neighbor. -/
lemma placeMinesList_spec (cfg : GameConfig) :
    ∀ (ms : List Position) (grid : Position → Cell),
      ms.Nodup →
      (∀ m ∈ ms, is_valid_position cfg m) →
      (∀ p, is_valid_position cfg p → -1 ≤ (grid p).value) →
      (∀ p, ¬ is_valid_position cfg p →
        placeMinesList cfg.rows cfg.cols grid ms p = grid p) ∧
      (∀ p, is_valid_position cfg p →
        (placeMinesList cfg.rows cfg.cols grid ms p).value =
          if p ∈ ms then MINE_VALUE
          else if (grid p).value = MINE_VALUE then MINE_VALUE
          else (grid p).value +
            (((p.get_neighbors cfg.rows cfg.cols).filter
              (fun q => decide (q ∈ ms))).length : Int)) := by
  intro ms
  induction ms with
  | nil =>
    intro grid _ _ _
    constructor
    · intro p _
      rfl
    · intro p _
      have he : (p.get_neighbors cfg.rows cfg.cols).filter
          (fun q => decide (q ∈ ([] : List Position))) = [] := by simp
      show (grid p).value = _
      rw [he]
      by_cases hv : (grid p).value = MINE_VALUE
      · simp [hv]
      · simp [hv]
  | cons m rest ih =>
    intro grid hnd hv hge
    obtain ⟨hmrest, hnd2⟩ := List.nodup_cons.1 hnd
    have hmv : is_valid_position cfg m := hv m (List.mem_cons_self m rest)
    set grid1 := bumpNeighbors cfg.rows cfg.cols (placeMineAt grid m) m with hdef
    have hplaceAt : ∀ p, placeMineAt grid m p =
        if p = m then { grid m with value := MINE_VALUE } else grid p := by
      intro p
      unfold placeMineAt
      rw [updateGrid_apply]
    have hgrid1p : ∀ p, grid1 p =
        if p ∈ m.get_neighbors cfg.rows cfg.cols ∧ ¬ (placeMineAt grid m p).is_mine
        then { placeMineAt grid m p with value := (placeMineAt grid m p).value + 1 }
        else placeMineAt grid m p := by
      intro p
      rw [hdef]
      unfold bumpNeighbors
      rw [foldl_bumpStep_apply _ (get_neighbors_nodup m cfg.rows cfg.cols)]
    have hg1m : (grid1 m).value = MINE_VALUE := by
      rw [hgrid1p m]
      have hno : m ∉ m.get_neighbors cfg.rows cfg.cols :=
        fun hc => (ne_of_mem_get_neighbors hc) rfl
      rw [if_neg (fun hc => hno hc.1), hplaceAt m, if_pos rfl]
    have hg1 : ∀ p, p ≠ m → (grid1 p).value =
        if p ∈ m.get_neighbors cfg.rows cfg.cols ∧ (grid p).value ≠ MINE_VALUE
        then (grid p).value + 1 else (grid p).value := by
      intro p hpm
      rw [hgrid1p p, hplaceAt p, if_neg hpm]
      unfold Cell.is_mine
      by_cases hc : p ∈ m.get_neighbors cfg.rows cfg.cols ∧ ¬ (grid p).value = MINE_VALUE
      · rw [if_pos hc, if_pos ⟨hc.1, hc.2⟩]
      · rw [if_neg hc, if_neg (fun hcc => hc ⟨hcc.1, hcc.2⟩)]
    have hge1 : ∀ p, is_valid_position cfg p → -1 ≤ (grid1 p).value := by
      intro p hp
      by_cases hpm : p = m
      · subst hpm
        rw [hg1m]
        unfold MINE_VALUE
        omega
      · rw [hg1 p hpm]
        have := hge p hp
        split_ifs <;> omega
    obtain ⟨ihA, ihB⟩ := ih grid1 hnd2 (fun q hq => hv q (List.mem_cons_of_mem m hq)) hge1
    constructor
    · intro p hp
      have hpm : p ≠ m := fun hc => hp (hc ▸ hmv)
      rw [placeMinesList_cons, ← hdef, ihA p hp, hgrid1p p,
        if_neg (fun hc => hp (valid_of_mem_get_neighbors_cfg hc.1)),
        hplaceAt p, if_neg hpm]
    · intro p hp
      rw [placeMinesList_cons, ← hdef, ihB p hp]
      by_cases hprest : p ∈ rest
      · rw [if_pos hprest, if_pos (List.mem_cons_of_mem m hprest)]
      · rw [if_neg hprest]
        by_cases hpm : p = m
        · subst hpm
          rw [if_pos hg1m, if_pos (List.mem_cons_self p rest)]
        · have hpcons : p ∉ m :: rest := by
            simp [List.mem_cons, hpm, hprest]
          rw [if_neg hpcons]
          by_cases hv0 : (grid p).value = MINE_VALUE
          · have hIF : (grid1 p).value = (grid p).value := by
              rw [hg1 p hpm, if_neg (fun hc => hc.2 hv0)]
            rw [hIF, if_pos hv0, if_pos hv0]
          · by_cases hnbr : p ∈ m.get_neighbors cfg.rows cfg.cols
            · have hIF : (grid1 p).value = (grid p).value + 1 := by
                rw [hg1 p hpm, if_pos ⟨hnbr, hv0⟩]
              have hvge : -1 ≤ (grid p).value := hge p hp
              have hne : (grid p).value + 1 ≠ MINE_VALUE := by
                unfold MINE_VALUE at *
                omega
              rw [hIF, if_neg hne, if_neg hv0]
              have hmnp : m ∈ p.get_neighbors cfg.rows cfg.cols :=
                (mem_get_neighbors_symm hmv hp).1 hnbr
              rw [filter_mem_cons_length m rest hmrest _
                (get_neighbors_nodup p cfg.rows cfg.cols), if_pos hmnp]
              push_cast
              omega
            · have hIF : (grid1 p).value = (grid p).value := by
                rw [hg1 p hpm, if_neg (fun hc => hnbr hc.1)]
              rw [hIF, if_neg hv0, if_neg hv0]
              have hmnp : m ∉ p.get_neighbors cfg.rows cfg.cols :=
                fun hc => hnbr ((mem_get_neighbors_symm hmv hp).2 hc)
              rw [filter_mem_cons_length m rest hmrest _
                (get_neighbors_nodup p cfg.rows cfg.cols), if_neg hmnp]
              push_cast
              omega

lemma Cell.ext_parts {c1 c2 : Cell} (hval : c1.value = c2.value)
    (hst : c1.state = c2.state) : c1 = c2 := by
  cases c1; cases c2; simp_all

/-- Specialization of `placeMinesList_spec` to an all-zero starting grid:
listed cells become mines, all other in-bounds cells hold exactly the number
of listed neighbors; in particular a cell is a mine iff it was listed. -/
lemma placeMinesList_zero {cfg : GameConfig} {ms : List Position} {grid : Position → Cell}
    (hnd : ms.Nodup) (hv : ∀ m ∈ ms, is_valid_position cfg m)
    (h0 : ∀ p, is_valid_position cfg p → (grid p).value = 0) :
    (∀ p, is_valid_position cfg p →
      (placeMinesList cfg.rows cfg.cols grid ms p).value =
        if p ∈ ms then MINE_VALUE
        else (((p.get_neighbors cfg.rows cfg.cols).filter
          (fun q => decide (q ∈ ms))).length : Int)) ∧
    (∀ p, is_valid_position cfg p →
      ((placeMinesList cfg.rows cfg.cols grid ms p).value = MINE_VALUE ↔ p ∈ ms)) := by
  have hge : ∀ p, is_valid_position cfg p → -1 ≤ (grid p).value := by
    intro p hp
    rw [h0 p hp]
    omega
  obtain ⟨_, hB⟩ := placeMinesList_spec cfg ms grid hnd hv hge
  have hval : ∀ p, is_valid_position cfg p →
      (placeMinesList cfg.rows cfg.cols grid ms p).value =
        if p ∈ ms then MINE_VALUE
        else (((p.get_neighbors cfg.rows cfg.cols).filter
          (fun q => decide (q ∈ ms))).length : Int) := by
    intro p hp
    rw [hB p hp, h0 p hp]
    by_cases hpms : p ∈ ms
    · rw [if_pos hpms, if_pos hpms]
    · rw [if_neg hpms, if_neg hpms, if_neg (by unfold MINE_VALUE; omega), zero_add]
  refine ⟨hval, fun p hp => ?_⟩
  rw [hval p hp]
  by_cases hpms : p ∈ ms
  · simp [hpms]
  · simp only [hpms, if_false, iff_false]
    unfold MINE_VALUE
    intro hc
    omega

/-- `C1`: after the mine-placement loop runs on the freshly initialized
(all-zero) grid, every chosen mine cell holds the sentinel and every other
cell holds exactly the number of mine cells among its neighbors; the final
grid is the same for every processing order of the chosen mines. -/
theorem C1_mine_placement (cfg : GameConfig) (grid : Position → Cell) (ms : List Position)
    (hnd : ms.Nodup) (hv : ∀ m ∈ ms, is_valid_position cfg m)
    (h0 : ∀ p ∈ positionsList cfg, (grid p).value = 0) :
    (∀ p, is_valid_position cfg p → p ∈ ms →
      (placeMinesList cfg.rows cfg.cols grid ms p).value = MINE_VALUE) ∧
    (∀ p, is_valid_position cfg p → p ∉ ms →
      (placeMinesList cfg.rows cfg.cols grid ms p).value =
        (((p.get_neighbors cfg.rows cfg.cols).filter
          (fun q => decide
            ((placeMinesList cfg.rows cfg.cols grid ms q).value = MINE_VALUE))).length : Int)) ∧
    (∀ ms2, ms.Perm ms2 →
      placeMinesList cfg.rows cfg.cols grid ms2 = placeMinesList cfg.rows cfg.cols grid ms) := by
  have h0v : ∀ p, is_valid_position cfg p → (grid p).value = 0 :=
    fun p hp => h0 p (mem_positionsList.2 hp)
  obtain ⟨hval, hiff⟩ := placeMinesList_zero hnd hv h0v
  refine ⟨?_, ?_, ?_⟩
  · intro p hp hpms
    rw [hval p hp, if_pos hpms]
  · intro p hp hpms
    rw [hval p hp, if_neg hpms]
    have hflt : (p.get_neighbors cfg.rows cfg.cols).filter
        (fun q => decide
          ((placeMinesList cfg.rows cfg.cols grid ms q).value = MINE_VALUE)) =
        (p.get_neighbors cfg.rows cfg.cols).filter (fun q => decide (q ∈ ms)) := by
      apply List.filter_congr
      intro q hq
      exact decide_eq_decide.2 (hiff q (valid_of_mem_get_neighbors_cfg hq))
    rw [hflt]
  · intro ms2 hperm
    have hnd2 : ms2.Nodup := hperm.nodup hnd
    have hv2 : ∀ m ∈ ms2, is_valid_position cfg m :=
      fun m hm => hv m (hperm.mem_iff.2 hm)
    obtain ⟨hval2, _⟩ := placeMinesList_zero hnd2 hv2 h0v
    funext p
    by_cases hp : is_valid_position cfg p
    · apply Cell.ext_parts
      · have hflt : (p.get_neighbors cfg.rows cfg.cols).filter
            (fun q => decide (q ∈ ms2)) =
            (p.get_neighbors cfg.rows cfg.cols).filter (fun q => decide (q ∈ ms)) := by
          apply List.filter_congr
          intro q _
          exact decide_eq_decide.2 hperm.mem_iff.symm
        rw [hval p hp, hval2 p hp, hflt]
        by_cases hpm : p ∈ ms
        · rw [if_pos hpm, if_pos (hperm.mem_iff.1 hpm)]
        · rw [if_neg hpm, if_neg (fun hc => hpm (hperm.mem_iff.2 hc))]
      · rw [placeMinesList_state, placeMinesList_state]
    · have hge : ∀ q, is_valid_position cfg q → -1 ≤ (grid q).value := by
        intro q hq
        rw [h0v q hq]
        omega
      rw [(placeMinesList_spec cfg ms2 grid hnd2 hv2 hge).1 p hp,
        (placeMinesList_spec cfg ms grid hnd hv hge).1 p hp]

/-- `C1` witness: a 3x3 grid with one mine at (2,2); the placement loop gives
the mine cell the sentinel and its neighbors value 1. -/
theorem C1_mine_placement_witness :
    (∀ p, is_valid_position ⟨3, 3, 1⟩ p → p ∈ [(⟨2, 2⟩ : Position)] →
      (placeMinesList (3 : Int) (3 : Int) (fun _ => {}) [(⟨2, 2⟩ : Position)] p).value =
        MINE_VALUE) ∧
    (∀ p, is_valid_position ⟨3, 3, 1⟩ p → p ∉ [(⟨2, 2⟩ : Position)] →
      (placeMinesList (3 : Int) (3 : Int) (fun _ => {}) [(⟨2, 2⟩ : Position)] p).value =
        (((p.get_neighbors 3 3).filter
          (fun q => decide
            ((placeMinesList (3 : Int) (3 : Int) (fun _ => {})
              [(⟨2, 2⟩ : Position)] q).value = MINE_VALUE))).length : Int)) ∧
    (∀ ms2, [(⟨2, 2⟩ : Position)].Perm ms2 →
      placeMinesList (3 : Int) (3 : Int) (fun _ => {}) ms2 =
        placeMinesList (3 : Int) (3 : Int) (fun _ => {}) [(⟨2, 2⟩ : Position)]) :=
  C1_mine_placement ⟨3, 3, 1⟩ (fun _ => {}) [⟨2, 2⟩] (by decide) (by decide)
    (fun _ _ => rfl)

/-! ### Value preservation after the first click (claim C2) -/

lemma foldlM_except_total {α β : Type} (f : α → β → Except GameLogicError α)
    (P : α → Prop) :
    ∀ (l : List β),
      (∀ a x, x ∈ l → P a → ∃ r, f a x = .ok r ∧ P r) →
      ∀ a, P a → ∃ r, l.foldlM f a = .ok r ∧ P r := by
  intro l
  induction l with
  | nil =>
    intro _ a ha
    exact ⟨a, rfl, ha⟩
  | cons x xs ih =>
    intro hstep a ha
    obtain ⟨a1, hfx, ha1⟩ := hstep a x (List.mem_cons_self x xs) ha
    obtain ⟨r, hrest, hr⟩ := ih
      (fun a2 x2 hm => hstep a2 x2 (List.mem_cons_of_mem x hm)) a1 ha1
    refine ⟨r, ?_, hr⟩
    rw [List.foldlM_cons, hfx]
    simp only [bind, Except.bind]
    exact hrest

lemma revealAreaAux_value (rows cols : Int)
    (push : List Position → List Position → List Position) :
    ∀ (fuel : Nat) (grid : Position → Cell) (queue : List Position)
      (revealed : Finset Position) (cnt : Int) (p : Position),
      ((revealAreaAux rows cols push fuel grid queue revealed cnt).1 p).value =
        (grid p).value := by
  intro fuel
  induction fuel with
  | zero => intro grid queue revealed cnt p; rfl
  | succ n ih =>
    intro grid queue revealed cnt p
    cases queue with
    | nil => rfl
    | cons pos rest =>
      simp only [revealAreaAux]
      have hupd : ∀ q, (updateGrid grid pos (grid pos).reveal q).value = (grid q).value := by
        intro q
        rw [updateGrid_apply]
        split_ifs with hq
        · rw [hq, Cell.reveal_value]
        · rfl
      split_ifs with h1 h2 h3
      · rw [ih]
      · rw [ih]
      · rw [ih]
        exact hupd p
      · rw [ih]
        exact hupd p

lemma reveal_empty_area_parts (g : MinesweeperGame) (start : Position) :
    (reveal_empty_area g start).1.config = g.config ∧
    (reveal_empty_area g start).1.game_state = g.game_state ∧
    (reveal_empty_area g start).1.first_click = g.first_click ∧
    (∀ p, ((reveal_empty_area g start).1.grid p).value = (g.grid p).value) := by
  refine ⟨rfl, rfl, rfl, fun p => ?_⟩
  unfold reveal_empty_area
  dsimp only
  exact revealAreaAux_value g.config.rows g.config.cols _ _ _ _ _ _ p

/-- When the mines are already placed (`first_click = false`), a `left_click`
at a valid position always succeeds, never changes any cell's `value`, keeps
the configuration, and leaves `first_click` false: the mines are placed at
most once per game. -/
lemma left_click_fuel_not_first :
    ∀ (fuel : Nat) (g : MinesweeperGame) (pos : Position) (sample : List Position),
      g.first_click = false → is_valid_position g.config pos →
      ∃ r, left_click_fuel fuel g pos sample = .ok r ∧
        r.1.first_click = false ∧ r.1.config = g.config ∧
        (∀ p, (r.1.grid p).value = (g.grid p).value) := by
  intro fuel
  induction fuel with
  | zero =>
    intro g pos sample hfc hv
    show ∃ r, leftClickStep _ g pos sample = .ok r ∧ _
    refine leftClickStep_elim _ g pos sample
      (motive := fun z => ∃ r, z = .ok r ∧ r.1.first_click = false ∧
        r.1.config = g.config ∧ ∀ p, (r.1.grid p).value = (g.grid p).value)
      ?_ ?_ ?_ ?_ ?_ ?_ ?_ ?_
    · intro h1
      exact absurd hv h1
    · intro _ _
      exact ⟨(g, ∅), rfl, hfc, rfl, fun _ => rfl⟩
    · intro _ _ _
      exact ⟨(g, ∅), rfl, hfc, rfl, fun _ => rfl⟩
    · intro e _ _ _ hpl
      rw [(placeOnFirstClick_error hpl).1] at hfc
      cases hfc
    · intro g1 _ _ _ hpl _
      rcases (placeOnFirstClick_ok hpl).2.2.2.2 with ⟨_, hg1⟩ | ⟨hfc1, _⟩
      · rw [hg1]
        have := foldlM_except_total (chordStep (fun h _ => .ok (h, ∅)))
          (fun acc : MinesweeperGame × Finset Position =>
            acc.1.first_click = false ∧ acc.1.config = g.config ∧
            ∀ p, (acc.1.grid p).value = (g.grid p).value)
          (pos.get_neighbors g.config.rows g.config.cols)
          (by
            intro acc n _ hacc
            unfold chordStep
            split_ifs with hguard
            · exact ⟨(acc.1, acc.2 ∪ ∅), rfl, hacc⟩
            · exact ⟨acc, rfl, hacc⟩)
          (g, ∅) ⟨hfc, rfl, fun _ => rfl⟩
        obtain ⟨r, hfold, hr⟩ := this
        unfold chord_click
        dsimp only
        split_ifs with hc1 hc2
        · exact ⟨(g, ∅), rfl, hfc, rfl, fun _ => rfl⟩
        · exact ⟨(g, ∅), rfl, hfc, rfl, fun _ => rfl⟩
        · exact ⟨r, hfold, hr.1, hr.2.1, hr.2.2⟩
      · rw [hfc1] at hfc
        cases hfc
    · intro g1 _ _ _ hpl _ _
      rcases (placeOnFirstClick_ok hpl).2.2.2.2 with ⟨_, hg1⟩ | ⟨hfc1, _⟩
      · rw [hg1]
        refine ⟨_, rfl, ?_, ?_, ?_⟩
        · rw [(check_win_condition_parts _).2.2.2]
          exact hfc
        · rw [(check_win_condition_parts _).1]
        · intro p
          rw [(check_win_condition_parts _).2.1]
          dsimp only
          rw [updateGrid_apply]
          split_ifs with hq
          · rw [hq, Cell.reveal_value]
          · rfl
      · rw [hfc1] at hfc
        cases hfc
    · intro g1 _ _ _ hpl _ _ _
      rcases (placeOnFirstClick_ok hpl).2.2.2.2 with ⟨_, hg1⟩ | ⟨hfc1, _⟩
      · rw [hg1]
        refine ⟨_, rfl, ?_, ?_, ?_⟩
        · rw [(check_win_condition_parts _).2.2.2]
          rw [(reveal_empty_area_parts g pos).2.2.1]
          exact hfc
        · rw [(check_win_condition_parts _).1]
          exact (reveal_empty_area_parts g pos).1
        · intro p
          rw [(check_win_condition_parts _).2.1]
          exact (reveal_empty_area_parts g pos).2.2.2 p
      · rw [hfc1] at hfc
        cases hfc
    · intro g1 _ _ _ hpl _ _ _
      rcases (placeOnFirstClick_ok hpl).2.2.2.2 with ⟨_, hg1⟩ | ⟨hfc1, _⟩
      · rw [hg1]
        refine ⟨_, rfl, ?_, ?_, ?_⟩
        · rw [(check_win_condition_parts _).2.2.2]
          exact hfc
        · rw [(check_win_condition_parts _).1]
        · intro p
          rw [(check_win_condition_parts _).2.1]
          dsimp only
          rw [updateGrid_apply]
          split_ifs with hq
          · rw [hq, Cell.reveal_value]
          · rfl
      · rw [hfc1] at hfc
        cases hfc
  | succ n ih =>
    intro g pos sample hfc hv
    show ∃ r, leftClickStep _ g pos sample = .ok r ∧ _
    refine leftClickStep_elim _ g pos sample
      (motive := fun z => ∃ r, z = .ok r ∧ r.1.first_click = false ∧
        r.1.config = g.config ∧ ∀ p, (r.1.grid p).value = (g.grid p).value)
      ?_ ?_ ?_ ?_ ?_ ?_ ?_ ?_
    · intro h1
      exact absurd hv h1
    · intro _ _
      exact ⟨(g, ∅), rfl, hfc, rfl, fun _ => rfl⟩
    · intro _ _ _
      exact ⟨(g, ∅), rfl, hfc, rfl, fun _ => rfl⟩
    · intro e _ _ _ hpl
      rw [(placeOnFirstClick_error hpl).1] at hfc
      cases hfc
    · intro g1 _ _ _ hpl _
      rcases (placeOnFirstClick_ok hpl).2.2.2.2 with ⟨_, hg1⟩ | ⟨hfc1, _⟩
      · rw [hg1]
        have := foldlM_except_total
          (chordStep (fun h p => left_click_fuel n h p []))
          (fun acc : MinesweeperGame × Finset Position =>
            acc.1.first_click = false ∧ acc.1.config = g.config ∧
            ∀ p, (acc.1.grid p).value = (g.grid p).value)
          (pos.get_neighbors g.config.rows g.config.cols)
          (by
            intro acc q hq hacc
            unfold chordStep
            split_ifs with hguard
            · have hqv : is_valid_position acc.1.config q := by
                rw [hacc.2.1]
                exact valid_of_mem_get_neighbors_cfg hq
              obtain ⟨r0, hcl, hr1, hr2, hr3⟩ := ih acc.1 q [] hacc.1 hqv
              refine ⟨(r0.1, acc.2 ∪ r0.2), ?_, hr1, hr2.trans hacc.2.1,
                fun p => (hr3 p).trans (hacc.2.2 p)⟩
              dsimp only
              rw [hcl]
              rfl
            · exact ⟨acc, rfl, hacc⟩)
          (g, ∅) ⟨hfc, rfl, fun _ => rfl⟩
        obtain ⟨r, hfold, hr⟩ := this
        unfold chord_click
        dsimp only
        split_ifs with hc1 hc2
        · exact ⟨(g, ∅), rfl, hfc, rfl, fun _ => rfl⟩
        · exact ⟨(g, ∅), rfl, hfc, rfl, fun _ => rfl⟩
        · exact ⟨r, hfold, hr.1, hr.2.1, hr.2.2⟩
      · rw [hfc1] at hfc
        cases hfc
    · intro g1 _ _ _ hpl _ _
      rcases (placeOnFirstClick_ok hpl).2.2.2.2 with ⟨_, hg1⟩ | ⟨hfc1, _⟩
      · rw [hg1]
        refine ⟨_, rfl, ?_, ?_, ?_⟩
        · rw [(check_win_condition_parts _).2.2.2]
          exact hfc
        · rw [(check_win_condition_parts _).1]
        · intro p
          rw [(check_win_condition_parts _).2.1]
          dsimp only
          rw [updateGrid_apply]
          split_ifs with hq
          · rw [hq, Cell.reveal_value]
          · rfl
      · rw [hfc1] at hfc
        cases hfc
    · intro g1 _ _ _ hpl _ _ _
      rcases (placeOnFirstClick_ok hpl).2.2.2.2 with ⟨_, hg1⟩ | ⟨hfc1, _⟩
      · rw [hg1]
        refine ⟨_, rfl, ?_, ?_, ?_⟩
        · rw [(check_win_condition_parts _).2.2.2]
          rw [(reveal_empty_area_parts g pos).2.2.1]
          exact hfc
        · rw [(check_win_condition_parts _).1]
          exact (reveal_empty_area_parts g pos).1
        · intro p
          rw [(check_win_condition_parts _).2.1]
          exact (reveal_empty_area_parts g pos).2.2.2 p
      · rw [hfc1] at hfc
        cases hfc
    · intro g1 _ _ _ hpl _ _ _
      rcases (placeOnFirstClick_ok hpl).2.2.2.2 with ⟨_, hg1⟩ | ⟨hfc1, _⟩
      · rw [hg1]
        refine ⟨_, rfl, ?_, ?_, ?_⟩
        · rw [(check_win_condition_parts _).2.2.2]
          exact hfc
        · rw [(check_win_condition_parts _).1]
        · intro p
          rw [(check_win_condition_parts _).2.1]
          dsimp only
          rw [updateGrid_apply]
          split_ifs with hq
          · rw [hq, Cell.reveal_value]
          · rfl
      · rw [hfc1] at hfc
        cases hfc

/-- After the placement block of a `left_click` succeeds with result `g1`
(whose first-click flag is already cleared), the rest of the click always
succeeds and never changes any cell's value. -/
lemma left_click_fuel_after_place (n : Nat) (g g1 : MinesweeperGame) (pos : Position)
    (sample : List Position)
    (hv : is_valid_position g.config pos) (hplay : g.game_state = GameState.Playing)
    (hnf : ¬ (g.grid pos).is_flagged)
    (hpl : placeOnFirstClick g pos sample = .ok g1)
    (hfc1 : g1.first_click = false) :
    ∃ r, left_click_fuel (n + 1) g pos sample = .ok r ∧
      r.1.first_click = false ∧ r.1.config = g.config ∧
      (∀ p, (r.1.grid p).value = (g1.grid p).value) := by
  have hg1c : g1.config = g.config := (placeOnFirstClick_ok hpl).1
  show ∃ r, leftClickStep _ g pos sample = .ok r ∧ _
  refine leftClickStep_elim _ g pos sample
    (motive := fun z => ∃ r, z = .ok r ∧ r.1.first_click = false ∧
      r.1.config = g.config ∧ ∀ p, (r.1.grid p).value = (g1.grid p).value)
    ?_ ?_ ?_ ?_ ?_ ?_ ?_ ?_
  · intro h1
    exact absurd hv h1
  · intro _ hns
    exact absurd hplay hns
  · intro _ _ hfl
    exact absurd hfl hnf
  · intro e _ _ _ hpl2
    rw [hpl] at hpl2
    cases hpl2
  · intro g2 _ _ _ hpl2 _
    rw [hpl] at hpl2
    cases hpl2
    obtain ⟨r, hfold, hr⟩ := foldlM_except_total
      (chordStep (fun h p => left_click_fuel n h p []))
      (fun acc : MinesweeperGame × Finset Position =>
        acc.1.first_click = false ∧ acc.1.config = g1.config ∧
        ∀ p, (acc.1.grid p).value = (g1.grid p).value)
      (pos.get_neighbors g1.config.rows g1.config.cols)
      (by
        intro acc q hq hacc
        unfold chordStep
        split_ifs with hguard
        · have hqv : is_valid_position acc.1.config q := by
            rw [hacc.2.1]
            exact valid_of_mem_get_neighbors_cfg hq
          obtain ⟨r0, hcl, hr1, hr2, hr3⟩ :=
            left_click_fuel_not_first n acc.1 q [] hacc.1 hqv
          refine ⟨(r0.1, acc.2 ∪ r0.2), ?_, hr1, hr2.trans hacc.2.1,
            fun p => (hr3 p).trans (hacc.2.2 p)⟩
          dsimp only
          rw [hcl]
          rfl
        · exact ⟨acc, rfl, hacc⟩)
      (g1, ∅) ⟨hfc1, rfl, fun _ => rfl⟩
    unfold chord_click
    dsimp only
    split_ifs with hc1 hc2
    · exact ⟨(g1, ∅), rfl, hfc1, hg1c, fun _ => rfl⟩
    · exact ⟨(g1, ∅), rfl, hfc1, hg1c, fun _ => rfl⟩
    · exact ⟨r, hfold, hr.1, hr.2.1.trans hg1c, hr.2.2⟩
  · intro g2 _ _ _ hpl2 _ _
    rw [hpl] at hpl2
    cases hpl2
    refine ⟨_, rfl, ?_, ?_, ?_⟩
    · rw [(check_win_condition_parts _).2.2.2]
      exact hfc1
    · rw [(check_win_condition_parts _).1]
      exact hg1c
    · intro p
      rw [(check_win_condition_parts _).2.1]
      dsimp only
      rw [updateGrid_apply]
      split_ifs with hq
      · rw [hq, Cell.reveal_value]
      · rfl
  · intro g2 _ _ _ hpl2 _ _ _
    rw [hpl] at hpl2
    cases hpl2
    refine ⟨_, rfl, ?_, ?_, ?_⟩
    · rw [(check_win_condition_parts _).2.2.2]
      rw [(reveal_empty_area_parts g1 pos).2.2.1]
      exact hfc1
    · rw [(check_win_condition_parts _).1]
      exact (reveal_empty_area_parts g1 pos).1.trans hg1c
    · intro p
      rw [(check_win_condition_parts _).2.1]
      exact (reveal_empty_area_parts g1 pos).2.2.2 p
  · intro g2 _ _ _ hpl2 _ _ _
    rw [hpl] at hpl2
    cases hpl2
    refine ⟨_, rfl, ?_, ?_, ?_⟩
    · rw [(check_win_condition_parts _).2.2.2]
      exact hfc1
    · rw [(check_win_condition_parts _).1]
      exact hg1c
    · intro p
      rw [(check_win_condition_parts _).2.1]
      dsimp only
      rw [updateGrid_apply]
      split_ifs with hq
      · rw [hq, Cell.reveal_value]
      · rfl

lemma left_click_insufficient {g : MinesweeperGame} {pos : Position} {sample : List Position}
    (hv : is_valid_position g.config pos) (hplay : g.game_state = GameState.Playing)
    (hnf : ¬ (g.grid pos).is_flagged) (hfc : g.first_click = true)
    (hshort : ((availablePositions g.config pos).length : Int) < g.config.mines) :
    left_click g pos sample = .error .notEnoughSpace := by
  have hpl : placeOnFirstClick g pos sample = .error .notEnoughSpace := by
    unfold placeOnFirstClick place_mines
    rw [if_pos hfc]
    dsimp only
    rw [if_pos hshort]
    rfl
  unfold left_click left_click_fuel leftClickStep
  rw [if_neg (not_not_intro hv), if_neg (fun hne => hne hplay), if_neg hnf, hpl]

/-- `C2`: mines are placed lazily, exactly once, during the first
`left_click` that reaches reveal logic: a fresh engine has an all-zero grid
with the first click pending; the first reveal places the mines so that
neither the clicked cell nor any of its neighbors is a mine; if the
candidate set is smaller than `config.mines` the engine raises the
insufficient-space error without changing anything; and once the first
click has happened no later click ever changes a cell's value. -/
theorem C2_lazy_placement (g : MinesweeperGame) (pos : Position)
    (sample : List Position) (cfg : GameConfig) :
    ((mkGame cfg).first_click = true ∧
      ∀ p, (mkGame cfg).grid p = { value := 0, state := CellState.Hidden }) ∧
    (is_valid_position g.config pos → g.game_state = GameState.Playing →
      ¬ (g.grid pos).is_flagged → g.first_click = true →
      (∀ p ∈ positionsList g.config, (g.grid p).value = 0) →
      sample.Nodup → (∀ m ∈ sample, m ∈ availablePositions g.config pos) →
      g.config.mines ≤ ((availablePositions g.config pos).length : Int) →
      0 ≤ g.config.mines →
      ∃ r, left_click g pos sample = .ok r ∧ r.1.first_click = false ∧
        ¬ (r.1.grid pos).is_mine ∧
        (∀ q ∈ pos.get_neighbors g.config.rows g.config.cols, ¬ (r.1.grid q).is_mine)) ∧
    (is_valid_position g.config pos → g.game_state = GameState.Playing →
      ¬ (g.grid pos).is_flagged → g.first_click = true →
      ((availablePositions g.config pos).length : Int) < g.config.mines →
      left_click g pos sample = .error .notEnoughSpace ∧ stepL g pos sample = g) ∧
    (is_valid_position g.config pos → g.first_click = false →
      ∃ r, left_click g pos sample = .ok r ∧ r.1.first_click = false ∧
        (∀ p, (r.1.grid p).value = (g.grid p).value)) := by
  refine ⟨⟨rfl, fun _ => rfl⟩, ?_, ?_, ?_⟩
  · intro hv hplay hnf hfc h0 hnd hsub hlen hnn
    have hpl : placeOnFirstClick g pos sample = .ok
        { g with grid := placeMinesList g.config.rows g.config.cols g.grid sample,
                 first_click := false } := by
      unfold placeOnFirstClick place_mines
      rw [if_pos hfc]
      dsimp only
      rw [if_neg (by omega), if_neg (by omega)]
      rfl
    obtain ⟨r, hok, hr1, hr2, hr3⟩ :=
      left_click_fuel_after_place 1 g _ pos sample hv hplay hnf hpl rfl
    have hvmem : ∀ m ∈ sample, is_valid_position g.config m :=
      fun m hm => valid_of_mem_availablePositions (hsub m hm)
    have h0v : ∀ p, is_valid_position g.config p → (g.grid p).value = 0 :=
      fun p hp => h0 p (mem_positionsList.2 hp)
    obtain ⟨hval, _⟩ := placeMinesList_zero hnd hvmem h0v
    have hexcl : ∀ q, is_valid_position g.config q →
        (q = pos ∨ q ∈ pos.get_neighbors g.config.rows g.config.cols) →
        ¬ (r.1.grid q).is_mine := by
      intro q hq hqe hmine
      unfold Cell.is_mine at hmine
      rw [hr3 q] at hmine
      dsimp only at hmine
      have hqs : q ∉ sample := by
        intro hqs
        exact (mem_availablePositions.1 (hsub q hqs)).2 hqe
      rw [hval q hq, if_neg hqs] at hmine
      unfold MINE_VALUE at hmine
      omega
    refine ⟨r, hok, hr1, ?_, ?_⟩
    · exact hexcl pos hv (Or.inl rfl)
    · intro q hq
      exact hexcl q (valid_of_mem_get_neighbors_cfg hq) (Or.inr hq)
  · intro hv hplay hnf hfc hshort
    have he := @left_click_insufficient g pos sample hv hplay hnf hfc hshort
    refine ⟨he, ?_⟩
    unfold stepL
    rw [he]
  · intro hv hfc
    obtain ⟨r, hok, hr1, _, hr3⟩ := left_click_fuel_not_first 2 g pos sample hfc hv
    exact ⟨r, hok, hr1, hr3⟩

/-! ### The flood fill computes exactly the zero-reachable region (claim C3) -/

lemma reachZero_valid {cfg : GameConfig} {G : Position → Cell} {start p : Position}
    (hs : is_valid_position cfg start)
    (h : reachZero cfg.rows cfg.cols G start p) : is_valid_position cfg p := by
  induction h with
  | refl => exact hs
  | tail _ hstep _ => exact valid_of_mem_get_neighbors_cfg hstep.2.2.2

/-- Main invariant of the `_reveal_empty_area` loop, for any work-list
discipline `push` that preserves membership and length.  Starting from a
state whose grid is the original `G` with the `revealed` set already opened,
with a sound queue and a closed frontier, enough fuel drains the queue and
produces: the grid `G` with exactly the final revealed set opened, a sound
and frontier-closed revealed set containing the start (if the start is
hidden and enqueued), and the revealed counter advanced by exactly the
number of newly revealed cells. -/
lemma revealAreaAux_invariant (cfg : GameConfig)
    (push : List Position → List Position → List Position)
    (hpush_mem : ∀ a b x, x ∈ push a b ↔ x ∈ a ∨ x ∈ b)
    (hpush_len : ∀ a b, (push a b).length = a.length + b.length)
    (G : Position → Cell) (start : Position) :
    ∀ (fuel : Nat) (grid : Position → Cell) (queue : List Position)
      (revealed : Finset Position) (cnt : Int),
      (∀ p, grid p = if p ∈ revealed then (G p).reveal else G p) →
      (∀ p ∈ revealed, is_valid_position cfg p ∧ (G p).state = CellState.Hidden ∧
        reachZero cfg.rows cfg.cols G start p) →
      (∀ q ∈ queue, is_valid_position cfg q ∧ reachZero cfg.rows cfg.cols G start q) →
      (∀ p ∈ revealed, (G p).value = EMPTY_CELL →
        ∀ n ∈ p.get_neighbors cfg.rows cfg.cols, (G n).state = CellState.Hidden →
          n ∈ revealed ∨ n ∈ queue) →
      revealed ⊆ posFinset cfg →
      queue.length + 9 * ((posFinset cfg).card - revealed.card) ≤ fuel →
      (revealed ⊆
        (revealAreaAux cfg.rows cfg.cols push fuel grid queue revealed cnt).2.1) ∧
      (∀ p, (revealAreaAux cfg.rows cfg.cols push fuel grid queue revealed cnt).1 p =
        if p ∈ (revealAreaAux cfg.rows cfg.cols push fuel grid queue revealed cnt).2.1
        then (G p).reveal else G p) ∧
      (∀ p ∈ (revealAreaAux cfg.rows cfg.cols push fuel grid queue revealed cnt).2.1,
        is_valid_position cfg p ∧ (G p).state = CellState.Hidden ∧
        reachZero cfg.rows cfg.cols G start p) ∧
      (∀ p ∈ (revealAreaAux cfg.rows cfg.cols push fuel grid queue revealed cnt).2.1,
        (G p).value = EMPTY_CELL →
        ∀ n ∈ p.get_neighbors cfg.rows cfg.cols, (G n).state = CellState.Hidden →
          n ∈ (revealAreaAux cfg.rows cfg.cols push fuel grid queue revealed cnt).2.1) ∧
      ((G start).state = CellState.Hidden → (start ∈ revealed ∨ start ∈ queue) →
        start ∈ (revealAreaAux cfg.rows cfg.cols push fuel grid queue revealed cnt).2.1) ∧
      ((revealAreaAux cfg.rows cfg.cols push fuel grid queue revealed cnt).2.2 =
        cnt + (((revealAreaAux cfg.rows cfg.cols push fuel grid queue
          revealed cnt).2.1.card : Int) - (revealed.card : Int))) ∧
      (revealAreaAux cfg.rows cfg.cols push fuel grid queue revealed cnt).2.1 ⊆
        posFinset cfg := by
  intro fuel
  induction fuel with
  | zero =>
    intro grid queue revealed cnt hgrid hsound hqueue hclosure hsub hfuel
    have hqnil : queue = [] := List.length_eq_zero.1 (by omega)
    subst hqnil
    simp only [revealAreaAux]
    refine ⟨Finset.Subset.refl _, hgrid, hsound, ?_, ?_, by ring, hsub⟩
    · intro p hp hz n hn hfr
      rcases hclosure p hp hz n hn hfr with h | h
      · exact h
      · cases h
    · intro _ hc
      rcases hc with h | h
      · exact h
      · cases h
  | succ n ih =>
    intro grid queue revealed cnt hgrid hsound hqueue hclosure hsub hfuel
    cases queue with
    | nil =>
      simp only [revealAreaAux]
      refine ⟨Finset.Subset.refl _, hgrid, hsound, ?_, ?_, by ring, hsub⟩
      · intro p hp hz q hn hfr
        rcases hclosure p hp hz q hn hfr with h | h
        · exact h
        · cases h
      · intro _ hc
        rcases hc with h | h
        · exact h
        · cases h
    | cons pos rest =>
      simp only [revealAreaAux]
      by_cases hmem : pos ∈ revealed
      · rw [if_pos hmem]
        have hclosure2 : ∀ p ∈ revealed, (G p).value = EMPTY_CELL →
            ∀ q ∈ p.get_neighbors cfg.rows cfg.cols,
              (G q).state = CellState.Hidden → q ∈ revealed ∨ q ∈ rest := by
          intro p hp hz q hn hfr
          rcases hclosure p hp hz q hn hfr with h | h
          · exact Or.inl h
          · rcases List.mem_cons.1 h with h | h
            · exact Or.inl (h ▸ hmem)
            · exact Or.inr h
        have hfuel2 : rest.length + 9 * ((posFinset cfg).card - revealed.card) ≤ n := by
          simp only [List.length_cons] at hfuel
          omega
        obtain ⟨c1, c2, c3, c4, c5, c6, c7⟩ := ih grid rest revealed cnt hgrid hsound
          (fun q hq => hqueue q (List.mem_cons_of_mem pos hq)) hclosure2 hsub hfuel2
        refine ⟨c1, c2, c3, c4, ?_, c6, c7⟩
        intro hfs hstart
        refine c5 hfs ?_
        rcases hstart with h | h
        · exact Or.inl h
        · rcases List.mem_cons.1 h with h | h
          · exact Or.inl (h ▸ hmem)
          · exact Or.inr h
      · rw [if_neg hmem]
        have hgpos : grid pos = G pos := by
          rw [hgrid pos, if_neg hmem]
        by_cases hskip : (grid pos).is_revealed ∨ (grid pos).is_flagged
        · rw [if_pos hskip]
          have hnotfresh : (G pos).state ≠ CellState.Hidden := by
            rw [hgpos] at hskip
            rcases hskip with h | h
            · unfold Cell.is_revealed at h
              rw [h]
              intro hc
              cases hc
            · unfold Cell.is_flagged at h
              rw [h]
              intro hc
              cases hc
          have hclosure2 : ∀ p ∈ revealed, (G p).value = EMPTY_CELL →
              ∀ q ∈ p.get_neighbors cfg.rows cfg.cols,
                (G q).state = CellState.Hidden → q ∈ revealed ∨ q ∈ rest := by
            intro p hp hz q hn hfr
            rcases hclosure p hp hz q hn hfr with h | h
            · exact Or.inl h
            · rcases List.mem_cons.1 h with h | h
              · exact absurd (h ▸ hfr) hnotfresh
              · exact Or.inr h
          have hfuel2 : rest.length + 9 * ((posFinset cfg).card - revealed.card) ≤ n := by
            simp only [List.length_cons] at hfuel
            omega
          obtain ⟨c1, c2, c3, c4, c5, c6, c7⟩ := ih grid rest revealed cnt hgrid hsound
            (fun q hq => hqueue q (List.mem_cons_of_mem pos hq)) hclosure2 hsub hfuel2
          refine ⟨c1, c2, c3, c4, ?_, c6, c7⟩
          intro hfs hstart
          refine c5 hfs ?_
          rcases hstart with h | h
          · exact Or.inl h
          · rcases List.mem_cons.1 h with h | h
            · exact absurd (h ▸ hfs) hnotfresh
            · exact Or.inr h
        · rw [if_neg hskip]
          have hfresh : (G pos).state = CellState.Hidden := by
            rw [hgpos] at hskip
            exact (Cell.hidden_iff_not_revealed_not_flagged (G pos)).2
              (not_or.1 hskip)
          obtain ⟨hposv, hposreach⟩ := hqueue pos (List.mem_cons_self pos rest)
          have hposN : pos ∈ posFinset cfg := mem_posFinset.2 hposv
          have hcard : revealed.card < (posFinset cfg).card :=
            Finset.card_lt_card (Finset.ssubset_iff_of_subset hsub |>.2
              ⟨pos, hposN, hmem⟩)
          have hcardins : (insert pos revealed).card = revealed.card + 1 :=
            Finset.card_insert_of_not_mem hmem
          have hsubins : insert pos revealed ⊆ posFinset cfg :=
            Finset.insert_subset hposN hsub
          have hgrid1 : ∀ p, updateGrid grid pos (grid pos).reveal p =
              if p ∈ insert pos revealed then (G p).reveal else G p := by
            intro p
            rw [updateGrid_apply]
            by_cases hp : p = pos
            · subst hp
              rw [if_pos rfl, if_pos (Finset.mem_insert_self p revealed), hgpos]
            · rw [if_neg hp, hgrid p]
              by_cases hpr : p ∈ revealed
              · rw [if_pos hpr, if_pos (Finset.mem_insert_of_mem hpr)]
              · rw [if_neg hpr, if_neg (by
                  intro hc
                  rcases Finset.mem_insert.1 hc with h | h
                  · exact hp h
                  · exact hpr h)]
          have hsound1 : ∀ p ∈ insert pos revealed,
              is_valid_position cfg p ∧ (G p).state = CellState.Hidden ∧
              reachZero cfg.rows cfg.cols G start p := by
            intro p hp
            rcases Finset.mem_insert.1 hp with h | h
            · subst h
              exact ⟨hposv, hfresh, hposreach⟩
            · exact hsound p h
          by_cases hzero : (grid pos).value = EMPTY_CELL
          · rw [if_pos hzero]
            have hzeroG : (G pos).value = EMPTY_CELL := by
              rw [← hgpos]
              exact hzero
            have hopen0 : (fun a b =>
                (0 ≤ a.row ∧ a.row < cfg.rows ∧ 0 ≤ a.col ∧ a.col < cfg.cols) ∧
                (G a).state = CellState.Hidden ∧ (G a).value = EMPTY_CELL ∧
                b ∈ a.get_neighbors cfg.rows cfg.cols) pos =
                fun b => is_valid_position cfg pos ∧ _ := rfl
            have hqueue1 : ∀ q ∈ push rest
                ((pos.get_neighbors cfg.rows cfg.cols).filter
                  (fun q => decide (q ∉ insert pos revealed))),
                is_valid_position cfg q ∧ reachZero cfg.rows cfg.cols G start q := by
              intro q hq
              rcases (hpush_mem _ _ q).1 hq with h | h
              · exact hqueue q (List.mem_cons_of_mem pos h)
              · have hqn : q ∈ pos.get_neighbors cfg.rows cfg.cols :=
                  List.mem_of_mem_filter h
                refine ⟨valid_of_mem_get_neighbors_cfg hqn, ?_⟩
                exact Relation.ReflTransGen.tail hposreach
                  ⟨hposv, hfresh, hzeroG, hqn⟩
            have hclosure1 : ∀ p ∈ insert pos revealed, (G p).value = EMPTY_CELL →
                ∀ q ∈ p.get_neighbors cfg.rows cfg.cols,
                  (G q).state = CellState.Hidden →
                q ∈ insert pos revealed ∨ q ∈ push rest
                  ((pos.get_neighbors cfg.rows cfg.cols).filter
                    (fun q => decide (q ∉ insert pos revealed))) := by
              intro p hp hz q hn hfr
              rcases Finset.mem_insert.1 hp with h | h
              · subst h
                by_cases hqr : q ∈ insert p revealed
                · exact Or.inl hqr
                · refine Or.inr ((hpush_mem _ _ q).2 (Or.inr ?_))
                  exact List.mem_filter.2 ⟨hn, by simpa using hqr⟩
              · rcases hclosure p h hz q hn hfr with h2 | h2
                · exact Or.inl (Finset.mem_insert_of_mem h2)
                · rcases List.mem_cons.1 h2 with h2 | h2
                  · exact Or.inl (h2 ▸ Finset.mem_insert_self pos revealed)
                  · exact Or.inr ((hpush_mem _ _ q).2 (Or.inl h2))
            have hfuel1 : (push rest
                ((pos.get_neighbors cfg.rows cfg.cols).filter
                  (fun q => decide (q ∉ insert pos revealed)))).length +
                9 * ((posFinset cfg).card - (insert pos revealed).card) ≤ n := by
              rw [hpush_len]
              have hf8 : ((pos.get_neighbors cfg.rows cfg.cols).filter
                  (fun q => decide (q ∉ insert pos revealed))).length ≤ 8 :=
                le_trans (List.length_filter_le _ _)
                  (get_neighbors_length_le pos cfg.rows cfg.cols)
              simp only [List.length_cons] at hfuel
              omega
            obtain ⟨c1, c2, c3, c4, c5, c6, c7⟩ :=
              ih (updateGrid grid pos (grid pos).reveal)
                (push rest ((pos.get_neighbors cfg.rows cfg.cols).filter
                  (fun q => decide (q ∉ insert pos revealed))))
                (insert pos revealed) (cnt + 1)
                hgrid1 hsound1 hqueue1 hclosure1 hsubins hfuel1
            refine ⟨?_, c2, c3, c4, ?_, ?_, c7⟩
            · exact fun x hx => c1 (Finset.mem_insert_of_mem hx)
            · intro hfs hstart
              refine c5 hfs ?_
              rcases hstart with h | h
              · exact Or.inl (Finset.mem_insert_of_mem h)
              · rcases List.mem_cons.1 h with h | h
                · exact Or.inl (h ▸ Finset.mem_insert_self pos revealed)
                · exact Or.inr ((hpush_mem _ _ start).2 (Or.inl h))
            · rw [c6, hcardins]
              have hle := Finset.card_le_card c1
              rw [hcardins] at hle
              push_cast
              ring
          · rw [if_neg hzero]
            have hnzG : (G pos).value ≠ EMPTY_CELL := by
              rw [← hgpos]
              exact hzero
            have hclosure1 : ∀ p ∈ insert pos revealed, (G p).value = EMPTY_CELL →
                ∀ q ∈ p.get_neighbors cfg.rows cfg.cols,
                  (G q).state = CellState.Hidden →
                q ∈ insert pos revealed ∨ q ∈ rest := by
              intro p hp hz q hn hfr
              rcases Finset.mem_insert.1 hp with h | h
              · subst h
                exact absurd hz hnzG
              · rcases hclosure p h hz q hn hfr with h2 | h2
                · exact Or.inl (Finset.mem_insert_of_mem h2)
                · rcases List.mem_cons.1 h2 with h2 | h2
                  · exact Or.inl (h2 ▸ Finset.mem_insert_self pos revealed)
                  · exact Or.inr h2
            have hfuel1 : rest.length +
                9 * ((posFinset cfg).card - (insert pos revealed).card) ≤ n := by
              simp only [List.length_cons] at hfuel
              omega
            obtain ⟨c1, c2, c3, c4, c5, c6, c7⟩ :=
              ih (updateGrid grid pos (grid pos).reveal) rest
                (insert pos revealed) (cnt + 1)
                hgrid1 hsound1
                (fun q hq => hqueue q (List.mem_cons_of_mem pos hq))
                hclosure1 hsubins hfuel1
            refine ⟨?_, c2, c3, c4, ?_, ?_, c7⟩
            · exact fun x hx => c1 (Finset.mem_insert_of_mem hx)
            · intro hfs hstart
              refine c5 hfs ?_
              rcases hstart with h | h
              · exact Or.inl (Finset.mem_insert_of_mem h)
              · rcases List.mem_cons.1 h with h | h
                · exact Or.inl (h ▸ Finset.mem_insert_self pos revealed)
                · exact Or.inr h
            · rw [c6, hcardins]
              have hle := Finset.card_le_card c1
              rw [hcardins] at hle
              push_cast
              ring

/-- Characterization of one full run of the flood-fill loop from a single
valid start cell and empty revealed set: the revealed region is exactly the
set of hidden cells reachable through hidden zero cells, the grid is opened
exactly there, and the counter grows by the region's size. -/
lemma revealAreaAux_run (cfg : GameConfig)
    (push : List Position → List Position → List Position)
    (hpush_mem : ∀ a b x, x ∈ push a b ↔ x ∈ a ∨ x ∈ b)
    (hpush_len : ∀ a b, (push a b).length = a.length + b.length)
    (G : Position → Cell) (start : Position) (cnt : Int) (fuel : Nat)
    (hfuel : bfsFuel cfg ≤ fuel)
    (hv : is_valid_position cfg start) :
    (∀ p, p ∈ (revealAreaAux cfg.rows cfg.cols push fuel G [start] ∅ cnt).2.1 ↔
      ((G p).state = CellState.Hidden ∧ reachZero cfg.rows cfg.cols G start p)) ∧
    (∀ p, (revealAreaAux cfg.rows cfg.cols push fuel G [start] ∅ cnt).1 p =
      if p ∈ (revealAreaAux cfg.rows cfg.cols push fuel G [start] ∅ cnt).2.1
      then (G p).reveal else G p) ∧
    ((revealAreaAux cfg.rows cfg.cols push fuel G [start] ∅ cnt).2.2 =
      cnt + (((revealAreaAux cfg.rows cfg.cols push fuel G [start] ∅ cnt).2.1.card
        : Int))) := by
  have hstart1 : ∀ q ∈ [start], is_valid_position cfg q ∧
      reachZero cfg.rows cfg.cols G start q := by
    intro q hq
    rcases List.mem_cons.1 hq with h | h
    · subst h
      exact ⟨hv, Relation.ReflTransGen.refl⟩
    · cases h
  have hfuel0 : ([start].length : Nat) +
      9 * ((posFinset cfg).card - (∅ : Finset Position).card) ≤ fuel := by
    rw [card_posFinset]
    unfold bfsFuel at hfuel
    simp only [List.length_singleton, Finset.card_empty]
    omega
  obtain ⟨c1, c2, c3, c4, c5, c6, c7⟩ :=
    revealAreaAux_invariant cfg push hpush_mem hpush_len G start fuel G [start] ∅ cnt
      (by intro p; simp)
      (by intro p hp; cases hp)
      hstart1
      (by intro p hp; cases hp)
      (Finset.empty_subset _)
      hfuel0
  refine ⟨?_, c2, by simpa using c6⟩
  intro p
  constructor
  · intro hp
    exact ⟨(c3 p hp).2.1, (c3 p hp).2.2⟩
  · rintro ⟨hfr, hreach⟩
    unfold reachZero at hreach
    revert hfr
    induction hreach with
    | refl =>
      intro hfr
      exact c5 hfr (Or.inr (List.mem_cons_self start []))
    | tail hab hbc ihb =>
      intro hfr
      exact c4 _ (ihb hbc.2.1) hbc.2.2.1 _ hbc.2.2.2 hfr

/-- Full specification of `_reveal_empty_area` from a valid start: the
returned set is exactly the hidden zero-reachable region, the grid is the
old grid with exactly that region revealed, `revealed_cells` grows by the
region's size and no other statistic changes; moreover a depth-first work
list yields the same region, and any extra fuel leaves the result
unchanged (the loop has terminated). -/
lemma reveal_empty_area_spec (g : MinesweeperGame) (start : Position)
    (hv : is_valid_position g.config start) :
    (∀ p, p ∈ (reveal_empty_area g start).2 ↔
      ((g.grid p).state = CellState.Hidden ∧
        reachZero g.config.rows g.config.cols g.grid start p)) ∧
    (∀ p, (reveal_empty_area g start).1.grid p =
      if p ∈ (reveal_empty_area g start).2 then (g.grid p).reveal else g.grid p) ∧
    ((reveal_empty_area g start).1.stats.revealed_cells =
      g.stats.revealed_cells + (((reveal_empty_area g start).2.card : Int))) ∧
    (reveal_empty_area g start).1.stats.remaining_mines = g.stats.remaining_mines ∧
    (reveal_empty_area g start).1.stats.flagged_cells = g.stats.flagged_cells ∧
    (reveal_empty_area g start).1.stats.total_cells = g.stats.total_cells ∧
    ((reveal_empty_area_dfs g start).2 = (reveal_empty_area g start).2) ∧
    (∀ extra : Nat,
      (revealAreaAux g.config.rows g.config.cols (fun q ns => q ++ ns)
        (bfsFuel g.config + extra) g.grid [start] ∅ g.stats.revealed_cells).2.1 =
      (reveal_empty_area g start).2) := by
  have hmem1 : ∀ (a b : List Position) (x : Position),
      x ∈ (fun q ns => q ++ ns) a b ↔ x ∈ a ∨ x ∈ b := by
    intro a b x
    exact List.mem_append
  have hlen1 : ∀ (a b : List Position),
      ((fun q ns => q ++ ns) a b).length = a.length + b.length := by
    intro a b
    exact List.length_append a b
  have hmem2 : ∀ (a b : List Position) (x : Position),
      x ∈ (fun q ns => ns ++ q) a b ↔ x ∈ a ∨ x ∈ b := by
    intro a b x
    exact List.mem_append.trans or_comm
  have hlen2 : ∀ (a b : List Position),
      ((fun q ns => ns ++ q) a b).length = a.length + b.length := by
    intro a b
    rw [List.length_append, Nat.add_comm]
  obtain ⟨b1, b2, b3⟩ := revealAreaAux_run g.config _ hmem1 hlen1 g.grid start
    g.stats.revealed_cells (bfsFuel g.config) le_rfl hv
  obtain ⟨d1, _, _⟩ := revealAreaAux_run g.config _ hmem2 hlen2 g.grid start
    g.stats.revealed_cells (bfsFuel g.config) le_rfl hv
  refine ⟨b1, b2, b3, rfl, rfl, rfl, ?_, ?_⟩
  · apply Finset.ext
    intro p
    exact (d1 p).trans (b1 p).symm
  · intro extra
    obtain ⟨e1, _, _⟩ := revealAreaAux_run g.config _ hmem1 hlen1 g.grid start
      g.stats.revealed_cells (bfsFuel g.config + extra) (Nat.le_add_right _ _) hv
    apply Finset.ext
    intro p
    exact (e1 p).trans (b1 p).symm

lemma left_click_flood {g : MinesweeperGame} {pos : Position} {sample : List Position}
    (hv : is_valid_position g.config pos) (hplay : g.game_state = GameState.Playing)
    (hfc : g.first_click = false) (hhid : (g.grid pos).state = CellState.Hidden)
    (hzero : (g.grid pos).value = EMPTY_CELL) :
    left_click g pos sample =
      .ok (check_win_condition (reveal_empty_area g pos).1,
        (reveal_empty_area g pos).2) := by
  have hnofl : ¬ (g.grid pos).is_flagged := by
    unfold Cell.is_flagged
    rw [hhid]
    intro h
    cases h
  have hnorev : ¬ (g.grid pos).is_revealed := by
    unfold Cell.is_revealed
    rw [hhid]
    intro h
    cases h
  have hnomine : ¬ (g.grid pos).is_mine := by
    unfold Cell.is_mine
    rw [hzero]
    exact (by decide)
  have hpl : placeOnFirstClick g pos sample = .ok g := by
    unfold placeOnFirstClick
    rw [hfc]
    rfl
  unfold left_click left_click_fuel leftClickStep
  rw [if_neg (not_not_intro hv), if_neg (fun hne => hne hplay), if_neg hnofl, hpl]
  dsimp only
  rw [if_neg hnorev, if_neg hnomine, if_pos hzero]

/-- `C3`: a `left_click` on a hidden zero-valued cell (mines placed, game
playing) succeeds and reveals exactly the maximal region of hidden cells
reachable from it through hidden zero cells — equivalently the connected
hidden zero region plus its hidden numbered border; every revealed cell
becomes `Revealed` and bumps `revealed_cells` by one (already revealed or
flagged cells are skipped and nothing else changes); the same region results
from a depth-first work list and from any surplus of fuel (the fill
terminates). -/
theorem C3_flood_fill (g : MinesweeperGame) (pos : Position) (sample : List Position)
    (hv : is_valid_position g.config pos)
    (hplay : g.game_state = GameState.Playing)
    (hfc : g.first_click = false)
    (hhid : (g.grid pos).state = CellState.Hidden)
    (hzero : (g.grid pos).value = EMPTY_CELL) :
    ∃ g2 S, left_click g pos sample = .ok (g2, S) ∧
      (∀ p, p ∈ S ↔ ((g.grid p).state = CellState.Hidden ∧
        reachZero g.config.rows g.config.cols g.grid pos p)) ∧
      (∀ p, p ∈ S ↔
        (((g.grid p).state = CellState.Hidden ∧ (g.grid p).value = EMPTY_CELL ∧
          reachZero g.config.rows g.config.cols g.grid pos p) ∨
         ((g.grid p).state = CellState.Hidden ∧ (g.grid p).value ≠ EMPTY_CELL ∧
          ∃ q, is_valid_position g.config q ∧ (g.grid q).state = CellState.Hidden ∧
            (g.grid q).value = EMPTY_CELL ∧
            reachZero g.config.rows g.config.cols g.grid pos q ∧
            p ∈ q.get_neighbors g.config.rows g.config.cols))) ∧
      (∀ p, g2.grid p = if p ∈ S then (g.grid p).reveal else g.grid p) ∧
      (∀ p ∈ S, (g2.grid p).state = CellState.Revealed) ∧
      g2.stats.revealed_cells = g.stats.revealed_cells + (S.card : Int) ∧
      g2.stats.remaining_mines = g.stats.remaining_mines ∧
      g2.stats.flagged_cells = g.stats.flagged_cells ∧
      g2.stats.total_cells = g.stats.total_cells ∧
      (reveal_empty_area_dfs g pos).2 = S ∧
      (∀ extra : Nat,
        (revealAreaAux g.config.rows g.config.cols (fun q ns => q ++ ns)
          (bfsFuel g.config + extra) g.grid [pos] ∅ g.stats.revealed_cells).2.1 = S) := by
  obtain ⟨s1, s2, s3, s4, s5, s6, s7, s8⟩ := reveal_empty_area_spec g pos hv
  refine ⟨check_win_condition (reveal_empty_area g pos).1, (reveal_empty_area g pos).2,
    left_click_flood hv hplay hfc hhid hzero, s1, ?_, ?_, ?_, ?_, ?_, ?_, ?_, s7, s8⟩
  · intro p
    constructor
    · intro hp
      obtain ⟨hfr, hre⟩ := (s1 p).1 hp
      by_cases hz : (g.grid p).value = EMPTY_CELL
      · exact Or.inl ⟨hfr, hz, hre⟩
      · refine Or.inr ⟨hfr, hz, ?_⟩
        unfold reachZero at hre
        rcases Relation.ReflTransGen.cases_tail hre with h | ⟨q, hq1, hq2⟩
        · exact absurd (by rw [h]; exact hzero) hz
        · exact ⟨q, hq2.1, hq2.2.1, hq2.2.2.1, hq1, hq2.2.2.2⟩
    · rintro (⟨hfr, _, hre⟩ | ⟨hfr, _, q, hqv, hqh, hqz, hqre, hpn⟩)
      · exact (s1 p).2 ⟨hfr, hre⟩
      · exact (s1 p).2 ⟨hfr, Relation.ReflTransGen.tail hqre ⟨hqv, hqh, hqz, hpn⟩⟩
  · intro p
    rw [(check_win_condition_parts _).2.1]
    exact s2 p
  · intro p hp
    rw [(check_win_condition_parts _).2.1, s2 p, if_pos hp]
    have hfr : (g.grid p).state = CellState.Hidden := ((s1 p).1 hp).1
    unfold Cell.reveal
    rw [if_pos (by rw [hfr]; intro h; cases h)]
  · rw [(check_win_condition_parts _).2.2.1]
    exact s3
  · rw [(check_win_condition_parts _).2.2.1]
    exact s4
  · rw [(check_win_condition_parts _).2.2.1]
    exact s5
  · rw [(check_win_condition_parts _).2.2.1]
    exact s6

/-- `C3` witness: in `partialFloodGame` (3x3, mine at (2,2), cells (0,1),
(1,0), (1,1) flagged, (0,0) already revealed) clicking the hidden zero cell
(2,0) floods its region. -/
theorem C3_flood_fill_witness :
    is_valid_position partialFloodGame.config ⟨2, 0⟩ ∧
    partialFloodGame.game_state = GameState.Playing ∧
    partialFloodGame.first_click = false ∧
    (partialFloodGame.grid ⟨2, 0⟩).state = CellState.Hidden ∧
    (partialFloodGame.grid ⟨2, 0⟩).value = EMPTY_CELL ∧
    ∃ g2 S, left_click partialFloodGame ⟨2, 0⟩ [] = .ok (g2, S) ∧
      (∀ p, p ∈ S ↔ ((partialFloodGame.grid p).state = CellState.Hidden ∧
        reachZero partialFloodGame.config.rows partialFloodGame.config.cols
          partialFloodGame.grid ⟨2, 0⟩ p)) ∧
      (∀ p, p ∈ S ↔
        (((partialFloodGame.grid p).state = CellState.Hidden ∧
          (partialFloodGame.grid p).value = EMPTY_CELL ∧
          reachZero partialFloodGame.config.rows partialFloodGame.config.cols
            partialFloodGame.grid ⟨2, 0⟩ p) ∨
         ((partialFloodGame.grid p).state = CellState.Hidden ∧
          (partialFloodGame.grid p).value ≠ EMPTY_CELL ∧
          ∃ q, is_valid_position partialFloodGame.config q ∧
            (partialFloodGame.grid q).state = CellState.Hidden ∧
            (partialFloodGame.grid q).value = EMPTY_CELL ∧
            reachZero partialFloodGame.config.rows partialFloodGame.config.cols
              partialFloodGame.grid ⟨2, 0⟩ q ∧
            p ∈ q.get_neighbors partialFloodGame.config.rows
              partialFloodGame.config.cols))) ∧
      (∀ p, g2.grid p = if p ∈ S then (partialFloodGame.grid p).reveal
        else partialFloodGame.grid p) ∧
      (∀ p ∈ S, (g2.grid p).state = CellState.Revealed) ∧
      g2.stats.revealed_cells = partialFloodGame.stats.revealed_cells + (S.card : Int) ∧
      g2.stats.remaining_mines = partialFloodGame.stats.remaining_mines ∧
      g2.stats.flagged_cells = partialFloodGame.stats.flagged_cells ∧
      g2.stats.total_cells = partialFloodGame.stats.total_cells ∧
      (reveal_empty_area_dfs partialFloodGame ⟨2, 0⟩).2 = S ∧
      (∀ extra : Nat,
        (revealAreaAux partialFloodGame.config.rows partialFloodGame.config.cols
          (fun q ns => q ++ ns) (bfsFuel partialFloodGame.config + extra)
          partialFloodGame.grid [⟨2, 0⟩] ∅
          partialFloodGame.stats.revealed_cells).2.1 = S) :=
  ⟨by decide, by decide, by decide, by decide, by decide,
    C3_flood_fill partialFloodGame ⟨2, 0⟩ [] (by decide) (by decide) (by decide)
      (by decide) (by decide)⟩

/-! ### Win detection (claim C4) -/

lemma left_click_g1_eq {g : MinesweeperGame} {pos : Position} {sample : List Position}
    {g1 : MinesweeperGame} (hfc : g.first_click = false)
    (hpl : placeOnFirstClick g pos sample = .ok g1) : g1 = g := by
  rcases (placeOnFirstClick_ok hpl).2.2.2.2 with ⟨_, h⟩ | ⟨hT, _⟩
  · exact h
  · rw [hT] at hfc
    cases hfc

/-- `C4`: the win check is a no-op once the game is over; while `Playing` it
sets the state to `Won` exactly when every cell is a mine or revealed (i.e.
every non-mine cell is revealed); consequently after any successful non-mine
reveal the state is `Won` iff every non-mine cell of the resulting grid is
revealed (and otherwise remains `Playing`); and on a 3x3 board with one mine
at (2,2), revealing the 8 non-mine cells yields a won game. -/
theorem C4_win_condition (g : MinesweeperGame) (pos : Position) (sample : List Position) :
    (g.game_state ≠ GameState.Playing → check_win_condition g = g) ∧
    (g.game_state = GameState.Playing →
      ((check_win_condition g).game_state = GameState.Won ↔
        ∀ p ∈ positionsList g.config, (g.grid p).is_mine ∨ (g.grid p).is_revealed)) ∧
    (is_valid_position g.config pos → g.game_state = GameState.Playing →
      g.first_click = false → (g.grid pos).state = CellState.Hidden →
      ¬ (g.grid pos).is_mine →
      ∀ g2 S, left_click g pos sample = .ok (g2, S) →
        ((g2.game_state = GameState.Won ↔
          ∀ p ∈ positionsList g2.config, (g2.grid p).is_mine ∨ (g2.grid p).is_revealed) ∧
         (g2.game_state = GameState.Playing ∨ g2.game_state = GameState.Won))) ∧
    is_won (stepL (mkGame ⟨3, 3, 1⟩) ⟨0, 0⟩ [⟨2, 2⟩]) := by
  have hstate : ∀ h : MinesweeperGame, h.game_state = GameState.Playing →
      ((check_win_condition h).game_state = GameState.Won ↔
        ∀ p ∈ positionsList h.config, (h.grid p).is_mine ∨ (h.grid p).is_revealed) := by
    intro h hplay
    rw [check_win_condition_state]
    by_cases hall : ∀ p ∈ positionsList h.config, (h.grid p).is_mine ∨ (h.grid p).is_revealed
    · rw [if_pos ⟨hplay, hall⟩]
      exact iff_of_true rfl hall
    · rw [if_neg (fun hc => hall hc.2), hplay]
      exact iff_of_false (fun hc => by cases hc) hall
  have hstate2 : ∀ h : MinesweeperGame, h.game_state = GameState.Playing →
      (check_win_condition h).game_state = GameState.Playing ∨
      (check_win_condition h).game_state = GameState.Won := by
    intro h hplay
    rw [check_win_condition_state]
    split_ifs
    · exact Or.inr rfl
    · exact Or.inl hplay
  refine ⟨?_, hstate g, ?_, by decide⟩
  · intro h
    unfold check_win_condition
    rw [if_pos h]
  · intro hv hplay hfc hhid hnomine g2 S
    have hnofl : ¬ (g.grid pos).is_flagged := by
      unfold Cell.is_flagged
      rw [hhid]
      intro h
      cases h
    have hnorev : ¬ (g.grid pos).is_revealed := by
      unfold Cell.is_revealed
      rw [hhid]
      intro h
      cases h
    show left_click_fuel 2 g pos sample = .ok (g2, S) → _
    refine leftClickStep_elim _ g pos sample
      (motive := fun z => z = .ok (g2, S) →
        ((g2.game_state = GameState.Won ↔
          ∀ p ∈ positionsList g2.config, (g2.grid p).is_mine ∨ (g2.grid p).is_revealed) ∧
         (g2.game_state = GameState.Playing ∨ g2.game_state = GameState.Won)))
      ?_ ?_ ?_ ?_ ?_ ?_ ?_ ?_
    · intro h1
      exact absurd hv h1
    · intro _ hns
      exact absurd hplay hns
    · intro _ _ hfl
      exact absurd hfl hnofl
    · intro e _ _ _ hpl heq
      cases heq
    · intro g1 _ _ _ hpl hrev
      rw [left_click_g1_eq hfc hpl] at hrev
      exact absurd hrev hnorev
    · intro g1 _ _ _ hpl _ hmine
      rw [left_click_g1_eq hfc hpl] at hmine
      exact absurd hmine hnomine
    · intro g1 _ _ _ hpl _ _ _ heq
      rw [left_click_g1_eq hfc hpl] at heq
      cases heq
      have hXplay : (reveal_empty_area g pos).1.game_state = GameState.Playing := by
        rw [(reveal_empty_area_parts g pos).2.1]
        exact hplay
      constructor
      · rw [(check_win_condition_parts _).2.1, (check_win_condition_parts _).1]
        exact hstate _ hXplay
      · exact hstate2 _ hXplay
    · intro g1 _ _ _ hpl _ _ _ heq
      rw [left_click_g1_eq hfc hpl] at heq
      cases heq
      constructor
      · rw [(check_win_condition_parts _).2.1, (check_win_condition_parts _).1]
        exact hstate _ hplay
      · exact hstate2 _ hplay

/-- `C4` witness: a concrete game over the initial 3x3 board where the
non-chord conditions hold, instantiating the win-check contract. -/
theorem C4_win_condition_witness :
    (partialFloodGame.game_state = GameState.Playing →
      ((check_win_condition partialFloodGame).game_state = GameState.Won ↔
        ∀ p ∈ positionsList partialFloodGame.config,
          (partialFloodGame.grid p).is_mine ∨ (partialFloodGame.grid p).is_revealed)) ∧
    is_won (stepL (mkGame ⟨3, 3, 1⟩) ⟨0, 0⟩ [⟨2, 2⟩]) :=
  ⟨fun h => (C4_win_condition partialFloodGame ⟨2, 0⟩ []).2.1 h,
    (C4_win_condition partialFloodGame ⟨2, 0⟩ []).2.2.2⟩

/-! ### Chord click (claim C5) -/

lemma not_flagged_of_revealed {c : Cell} (h : c.is_revealed) : ¬ c.is_flagged := by
  unfold Cell.is_revealed at h
  unfold Cell.is_flagged
  rw [h]
  intro hc
  cases hc

lemma left_click_chord {g : MinesweeperGame} {pos : Position} {sample : List Position}
    (hv : is_valid_position g.config pos) (hplay : g.game_state = GameState.Playing)
    (hrev : (g.grid pos).is_revealed) (hfc : g.first_click = false) :
    left_click g pos sample =
      chord_click (fun h p => left_click_fuel 1 h p []) g pos := by
  have hpl : placeOnFirstClick g pos sample = .ok g := by
    unfold placeOnFirstClick
    rw [hfc]
    rfl
  unfold left_click left_click_fuel leftClickStep
  rw [if_neg (not_not_intro hv), if_neg (fun hne => hne hplay),
    if_neg (not_flagged_of_revealed hrev), hpl]
  dsimp only
  rw [if_pos hrev]
  rfl

lemma leftClickStep_congr_inner
    (inner1 inner2 : MinesweeperGame → Position →
      Except GameLogicError (MinesweeperGame × Finset Position))
    (g : MinesweeperGame) (pos : Position) (sample : List Position)
    (h : (g.grid pos).state ≠ CellState.Revealed) :
    leftClickStep inner1 g pos sample = leftClickStep inner2 g pos sample := by
  unfold leftClickStep
  split_ifs with h1 h2 h3 <;> try rfl
  cases hpl : placeOnFirstClick g pos sample with
  | error e => rfl
  | ok g1 =>
    dsimp only
    have hrev : ¬ (g1.grid pos).is_revealed := by
      unfold Cell.is_revealed
      rw [(placeOnFirstClick_ok hpl).2.2.2.1 pos]
      exact h
    split_ifs with h4 h5 h6 <;> first | rfl | exact absurd h4 hrev

lemma left_click_fuel_congr_not_revealed (a b : Nat) (g : MinesweeperGame)
    (pos : Position) (sample : List Position)
    (h : (g.grid pos).state ≠ CellState.Revealed) :
    left_click_fuel a g pos sample = left_click_fuel b g pos sample := by
  cases a with
  | zero =>
    cases b with
    | zero => rfl
    | succ b1 => exact leftClickStep_congr_inner _ _ g pos sample h
  | succ a1 =>
    cases b with
    | zero => exact leftClickStep_congr_inner _ _ g pos sample h
    | succ b1 => exact leftClickStep_congr_inner _ _ g pos sample h

lemma foldlM_chordStep_congr
    (click1 click2 : MinesweeperGame → Position →
      Except GameLogicError (MinesweeperGame × Finset Position))
    (hcong : ∀ h q, (h.grid q).state ≠ CellState.Revealed → click1 h q = click2 h q) :
    ∀ (l : List Position) (acc : MinesweeperGame × Finset Position),
      l.foldlM (chordStep click1) acc = l.foldlM (chordStep click2) acc := by
  intro l
  induction l with
  | nil => intro acc; rfl
  | cons x xs ih =>
    intro acc
    rw [List.foldlM_cons, List.foldlM_cons]
    have hstep : chordStep click1 acc x = chordStep click2 acc x := by
      unfold chordStep
      split_ifs with hg
      · rw [hcong acc.1 x hg.1]
      · rfl
    rw [hstep]
    cases h2 : chordStep click2 acc x with
    | error e => rfl
    | ok a =>
      simp only [bind, Except.bind]
      exact ih a

/-- `C5`: a `left_click` on an already revealed cell is a chord click: if the
cell's value is not strictly positive, or the number of flagged neighbors
differs from the value, nothing happens (empty set, game unchanged); if the
flagged count matches exactly, the click folds a full `left_click` over every
neighbor that is currently neither revealed nor flagged, accumulating the
union of all changed positions. -/
theorem C5_chord_click (g : MinesweeperGame) (pos : Position) (sample : List Position)
    (hv : is_valid_position g.config pos)
    (hplay : g.game_state = GameState.Playing)
    (hrev : (g.grid pos).is_revealed)
    (hfc : g.first_click = false) :
    (((g.grid pos).value ≤ 0 ∨
      ((((pos.get_neighbors g.config.rows g.config.cols).filter
        (fun n => decide (g.grid n).is_flagged)).length : Int) ≠ (g.grid pos).value) →
      left_click g pos sample = .ok (g, ∅))) ∧
    (((((pos.get_neighbors g.config.rows g.config.cols).filter
        (fun n => decide (g.grid n).is_flagged)).length : Int) = (g.grid pos).value →
      0 < (g.grid pos).value →
      left_click g pos sample =
        (pos.get_neighbors g.config.rows g.config.cols).foldlM
          (chordStep (fun h p => left_click h p [])) (g, ∅))) := by
  rw [left_click_chord hv hplay hrev hfc]
  unfold chord_click
  dsimp only
  constructor
  · intro hcase
    rcases hcase with hval | hcnt
    · rw [if_pos (Or.inr hval)]
    · by_cases hval : (g.grid pos).value ≤ 0
      · rw [if_pos (Or.inr hval)]
      · rw [if_neg (by
          intro hc
          rcases hc with hc | hc
          · exact hc hrev
          · exact hval hc), if_pos hcnt]
  · intro hcnt hvalpos
    rw [if_neg (by
        intro hc
        rcases hc with hc | hc
        · exact hc hrev
        · omega),
      if_neg (fun hc => hc hcnt)]
    apply foldlM_chordStep_congr
    intro h q hq
    show left_click_fuel 1 h q [] = left_click_fuel 2 h q []
    exact left_click_fuel_congr_not_revealed 1 2 h q [] hq

/-- `C5` witness: chord-clicking the revealed zero cell (0,0) of
`partialFloodGame` changes nothing. -/
theorem C5_chord_click_witness :
    left_click partialFloodGame ⟨0, 0⟩ [] = .ok (partialFloodGame, ∅) :=
  (C5_chord_click partialFloodGame ⟨0, 0⟩ [] (by decide) (by decide) (by decide)
    (by decide)).1 (Or.inl (by decide))

/-! ### The statistics invariant over reachable states (claim C10) -/

lemma Cell.reveal_flagged (c : Cell) : c.reveal.is_flagged ↔ c.is_flagged := by
  unfold Cell.is_flagged Cell.reveal
  split_ifs with h
  · exact iff_of_false (fun hc => by cases hc) (fun hc => h hc)
  · exact Iff.rfl

lemma Cell.reveal_hidden_revealed {c : Cell} (h : c.state = CellState.Hidden) :
    c.reveal.is_revealed := by
  unfold Cell.is_revealed
  rw [Cell.reveal_state, h]
  rfl

lemma card_filter_flip (s : Finset Position) (f f2 : Position → Prop)
    [DecidablePred f] [DecidablePred f2] (S : Finset Position) (hS : S ⊆ s)
    (hin : ∀ q ∈ S, ¬ f q ∧ f2 q) (hout : ∀ q, q ∉ S → (f q ↔ f2 q)) :
    (s.filter f2).card = (s.filter f).card + S.card := by
  have hunion : s.filter f2 = s.filter f ∪ S := by
    ext q
    simp only [Finset.mem_filter, Finset.mem_union]
    by_cases hq : q ∈ S
    · exact iff_of_true ⟨hS hq, (hin q hq).2⟩ (Or.inr hq)
    · constructor
      · intro h
        exact Or.inl ⟨h.1, (hout q hq).2 h.2⟩
      · intro h
        rcases h with h | h
        · exact ⟨h.1, (hout q hq).1 h.2⟩
        · exact absurd h hq
  have hdisj : Disjoint (s.filter f) S := by
    rw [Finset.disjoint_left]
    intro q hqf hqS
    exact (hin q hqS).1 (Finset.mem_filter.1 hqf).2
  rw [hunion, Finset.card_union_of_disjoint hdisj]

lemma flaggedCount_congr {a b : MinesweeperGame} (hc : b.config = a.config)
    (hiff : ∀ p, is_valid_position a.config p →
      ((b.grid p).is_flagged ↔ (a.grid p).is_flagged)) :
    flaggedCount b = flaggedCount a := by
  unfold flaggedCount
  rw [hc]
  have hfe : (posFinset a.config).filter (fun p => (b.grid p).is_flagged) =
      (posFinset a.config).filter (fun p => (a.grid p).is_flagged) :=
    Finset.filter_congr (fun p hp => hiff p (mem_posFinset.1 hp))
  rw [hfe]

lemma revealedSafeCount_congr {a b : MinesweeperGame} (hc : b.config = a.config)
    (hiff : ∀ p, is_valid_position a.config p →
      (((b.grid p).is_revealed ∧ ¬ (b.grid p).is_mine) ↔
        ((a.grid p).is_revealed ∧ ¬ (a.grid p).is_mine))) :
    revealedSafeCount b = revealedSafeCount a := by
  unfold revealedSafeCount
  rw [hc]
  have hfe : (posFinset a.config).filter
      (fun p => (b.grid p).is_revealed ∧ ¬ (b.grid p).is_mine) =
      (posFinset a.config).filter
      (fun p => (a.grid p).is_revealed ∧ ¬ (a.grid p).is_mine) :=
    Finset.filter_congr (fun p hp => hiff p (mem_posFinset.1 hp))
  rw [hfe]

lemma revealedSafeCount_add {a b : MinesweeperGame} (hc : b.config = a.config)
    (S : Finset Position) (hS : ∀ p ∈ S, is_valid_position a.config p)
    (hin : ∀ p ∈ S, ¬ ((a.grid p).is_revealed ∧ ¬ (a.grid p).is_mine) ∧
      ((b.grid p).is_revealed ∧ ¬ (b.grid p).is_mine))
    (hout : ∀ p, p ∉ S → (((a.grid p).is_revealed ∧ ¬ (a.grid p).is_mine) ↔
      ((b.grid p).is_revealed ∧ ¬ (b.grid p).is_mine))) :
    revealedSafeCount b = revealedSafeCount a + (S.card : Int) := by
  unfold revealedSafeCount
  rw [hc]
  rw [card_filter_flip (posFinset a.config)
    (fun p => (a.grid p).is_revealed ∧ ¬ (a.grid p).is_mine)
    (fun p => (b.grid p).is_revealed ∧ ¬ (b.grid p).is_mine) S
    (fun p hp => mem_posFinset.2 (hS p hp)) hin hout]
  push_cast
  ring

lemma flaggedCount_add {a b : MinesweeperGame} (hc : b.config = a.config)
    (pos : Position) (hv : is_valid_position a.config pos)
    (hoff : ¬ (a.grid pos).is_flagged) (hon : (b.grid pos).is_flagged)
    (hout : ∀ p, p ≠ pos → ((a.grid p).is_flagged ↔ (b.grid p).is_flagged)) :
    flaggedCount b = flaggedCount a + 1 := by
  unfold flaggedCount
  rw [hc]
  rw [card_filter_flip (posFinset a.config) (fun p => (a.grid p).is_flagged)
    (fun p => (b.grid p).is_flagged) {pos}
    (fun p hp => by
      rw [Finset.mem_singleton] at hp
      rw [hp]
      exact mem_posFinset.2 hv)
    (fun p hp => by
      rw [Finset.mem_singleton] at hp
      subst hp
      exact ⟨hoff, hon⟩)
    (fun p hp => hout p (fun hcc => hp (Finset.mem_singleton.2 hcc)))]
  rw [Finset.card_singleton]
  push_cast
  ring

lemma mineNeighborCount_congr {a b : MinesweeperGame} (hc : b.config = a.config)
    (hval : ∀ p, (b.grid p).value = (a.grid p).value) (p : Position) :
    mineNeighborCount b p = mineNeighborCount a p := by
  unfold mineNeighborCount
  rw [hc]
  have hfe : (p.get_neighbors a.config.rows a.config.cols).filter
      (fun q => decide (b.grid q).is_mine) =
      (p.get_neighbors a.config.rows a.config.cols).filter
      (fun q => decide (a.grid q).is_mine) := by
    apply List.filter_congr
    intro q _
    apply decide_eq_decide.2
    unfold Cell.is_mine
    rw [hval q]
  rw [hfe]

lemma MineConsistent_congr {a b : MinesweeperGame} (hc : b.config = a.config)
    (hval : ∀ p, (b.grid p).value = (a.grid p).value)
    (h : MineConsistent a) : MineConsistent b := by
  intro p hp hnm
  rw [hval p, mineNeighborCount_congr hc hval p]
  refine h p (hc ▸ hp) ?_
  unfold Cell.is_mine at hnm ⊢
  rw [← hval p]
  exact hnm

lemma EngineInv_of_eq {a b : MinesweeperGame} (hc : b.config = a.config)
    (hg : b.grid = a.grid) (hs : b.stats = a.stats) (hf : b.first_click = a.first_click)
    (h : EngineInv a) : EngineInv b := by
  obtain ⟨⟨h1, h2, h3⟩, h4, h5⟩ := h
  have hfl : flaggedCount b = flaggedCount a :=
    flaggedCount_congr hc (fun p _ => by rw [hg])
  have hsa : revealedSafeCount b = revealedSafeCount a :=
    revealedSafeCount_congr hc (fun p _ => by rw [hg])
  refine ⟨⟨?_, ?_, ?_⟩, ?_, ?_⟩
  · rw [hs, hfl]
    exact h1
  · rw [hs, hc, hfl]
    exact h2
  · rw [hs, hsa]
    exact h3
  · intro hcl
    rw [hf] at hcl
    intro p
    rw [hg]
    exact h4 hcl p
  · intro hcl
    rw [hf] at hcl
    exact MineConsistent_congr hc (fun p => by rw [hg]) (h5 hcl)

lemma reachZero_not_mine {g : MinesweeperGame} {start p : Position}
    (hmc : MineConsistent g) (hv : is_valid_position g.config start)
    (h0 : (g.grid start).value = EMPTY_CELL)
    (hr : reachZero g.config.rows g.config.cols g.grid start p) :
    ¬ (g.grid p).is_mine := by
  unfold reachZero at hr
  rcases Relation.ReflTransGen.cases_tail hr with heq | ⟨c, _, hstep⟩
  · subst heq
    intro hm
    unfold Cell.is_mine MINE_VALUE at hm
    unfold EMPTY_CELL at h0
    rw [h0] at hm
    omega
  · obtain ⟨hb, hhid, hz, hnb⟩ := hstep
    have hcv : is_valid_position g.config c := hb
    have hcnm : ¬ (g.grid c).is_mine := by
      intro hm
      unfold Cell.is_mine MINE_VALUE at hm
      unfold EMPTY_CELL at hz
      rw [hz] at hm
      omega
    have hcount := hmc c hcv hcnm
    rw [hz] at hcount
    unfold EMPTY_CELL at hcount
    unfold mineNeighborCount at hcount
    have hlen : ((c.get_neighbors g.config.rows g.config.cols).filter
        (fun q => decide (g.grid q).is_mine)).length = 0 := by
      omega
    intro hpm
    have hmem : p ∈ (c.get_neighbors g.config.rows g.config.cols).filter
        (fun q => decide (g.grid q).is_mine) :=
      List.mem_filter.2 ⟨hnb, decide_eq_true hpm⟩
    rw [List.length_eq_zero] at hlen
    rw [hlen] at hmem
    cases hmem

lemma placeOnFirstClick_inv {g g1 : MinesweeperGame} {pos : Position}
    {sample : List Position} (hinv : EngineInv g)
    (hnd : sample.Nodup)
    (hmem : ∀ m ∈ sample, m ∈ availablePositions g.config pos)
    (h : placeOnFirstClick g pos sample = .ok g1) :
    EngineInv g1 ∧ g1.config = g.config ∧ g1.first_click = false ∧
      g1.game_state = g.game_state ∧ MineConsistent g1 ∧
      (∀ p, (g1.grid p).state = (g.grid p).state) := by
  obtain ⟨hconf, hgs, hstats, hstate, hcase⟩ := placeOnFirstClick_ok h
  rcases hcase with ⟨hfcf, hg1g⟩ | ⟨hfct, hfc1, hgrid, hrest⟩
  · subst hg1g
    exact ⟨hinv, rfl, hfcf, rfl, hinv.2.2 hfcf, fun _ => rfl⟩
  · have hpre : PreFirstClick g := hinv.2.1 hfct
    have hsv : ∀ m ∈ sample, is_valid_position g.config m :=
      fun m hm => valid_of_mem_availablePositions (hmem m hm)
    have h0 : ∀ p, is_valid_position g.config p → (g.grid p).value = 0 :=
      fun p _ => (hpre p).1
    obtain ⟨hval, hmiff⟩ := placeMinesList_zero hnd hsv h0
    have hg1val : ∀ p, g1.grid p =
        placeMinesList g.config.rows g.config.cols g.grid sample p := by
      intro p
      rw [hgrid]
    have hg1miff : ∀ p, is_valid_position g.config p →
        ((g1.grid p).is_mine ↔ p ∈ sample) := by
      intro p hp
      unfold Cell.is_mine
      rw [hg1val p]
      exact hmiff p hp
    have hmc : MineConsistent g1 := by
      intro p hp hnm
      rw [hconf] at hp
      have hps : p ∉ sample := fun hcc => hnm ((hg1miff p hp).2 hcc)
      have hv1 : (g1.grid p).value =
          (((p.get_neighbors g.config.rows g.config.cols).filter
            (fun q => decide (q ∈ sample))).length : Int) := by
        rw [hg1val p, hval p hp, if_neg hps]
      rw [hv1]
      unfold mineNeighborCount
      rw [hconf]
      have hfe : (p.get_neighbors g.config.rows g.config.cols).filter
          (fun q => decide (g1.grid q).is_mine) =
          (p.get_neighbors g.config.rows g.config.cols).filter
          (fun q => decide (q ∈ sample)) := by
        apply List.filter_congr
        intro q hq
        exact decide_eq_decide.2 (hg1miff q (valid_of_mem_get_neighbors_cfg hq))
      rw [hfe]
    have hnrev : ∀ p, ¬ (g1.grid p).is_revealed := by
      intro p hcc
      unfold Cell.is_revealed at hcc
      rw [hstate p] at hcc
      exact (hpre p).2 hcc
    have hflag : flaggedCount g1 = flaggedCount g :=
      flaggedCount_congr hconf (fun p _ => by
        unfold Cell.is_flagged
        rw [hstate p])
    have hsafe : revealedSafeCount g1 = revealedSafeCount g :=
      revealedSafeCount_congr hconf (fun p _ =>
        iff_of_false (fun hcc => hnrev p hcc.1) (fun hcc => (hpre p).2 hcc.1))
    have hsc : StatsConsistent g1 := by
      obtain ⟨hf, hr, hv2⟩ := hinv.1
      refine ⟨?_, ?_, ?_⟩
      · rw [hstats, hflag]
        exact hf
      · rw [hstats, hconf, hflag]
        exact hr
      · rw [hstats, hsafe]
        exact hv2
    refine ⟨⟨hsc, ?_, fun _ => hmc⟩, hconf, hfc1, hgs, hmc, hstate⟩
    intro hcc
    rw [hfc1] at hcc
    cases hcc

lemma EngineInv_update_reveal {a b : MinesweeperGame} (pos : Position)
    (hc : b.config = a.config) (hfca : a.first_click = false)
    (hfc : b.first_click = a.first_click)
    (hg : b.grid = updateGrid a.grid pos (a.grid pos).reveal)
    (hv : is_valid_position a.config pos)
    (hhid : (a.grid pos).state = CellState.Hidden)
    (hsf : b.stats.flagged_cells = a.stats.flagged_cells)
    (hsr : b.stats.remaining_mines = a.stats.remaining_mines)
    (hsv : b.stats.revealed_cells =
      a.stats.revealed_cells + (if (a.grid pos).is_mine then 0 else 1))
    (hinv : EngineInv a) : EngineInv b := by
  have hmca : MineConsistent a := hinv.2.2 hfca
  have hbpos : b.grid pos = (a.grid pos).reveal := by
    rw [hg, updateGrid_self]
  have hoff : ∀ p, p ≠ pos → b.grid p = a.grid p := by
    intro p hp
    rw [hg, updateGrid_ne _ _ _ _ hp]
  have hval : ∀ p, (b.grid p).value = (a.grid p).value := by
    intro p
    by_cases hp : p = pos
    · subst hp
      rw [hbpos, Cell.reveal_value]
    · rw [hoff p hp]
  have hbmc : MineConsistent b := MineConsistent_congr hc hval hmca
  have hflag : flaggedCount b = flaggedCount a := by
    refine flaggedCount_congr hc (fun p _ => ?_)
    by_cases hp : p = pos
    · subst hp
      rw [hbpos]
      exact Cell.reveal_flagged _
    · rw [hoff p hp]
  have hanrev : ¬ (a.grid pos).is_revealed := by
    intro hcc
    unfold Cell.is_revealed at hcc
    rw [hhid] at hcc
    cases hcc
  have hsafe : revealedSafeCount b =
      revealedSafeCount a + (if (a.grid pos).is_mine then 0 else 1) := by
    by_cases hm : (a.grid pos).is_mine
    · rw [if_pos hm, add_zero]
      refine revealedSafeCount_congr hc (fun p _ => ?_)
      by_cases hp : p = pos
      · subst hp
        refine iff_of_false ?_ ?_
        · intro hcc
          apply hcc.2
          unfold Cell.is_mine at hm ⊢
          rw [hval p]
          exact hm
        · intro hcc
          exact hcc.2 hm
      · rw [hoff p hp]
    · rw [if_neg hm]
      have hadd := revealedSafeCount_add hc {pos}
        (fun p hp => by
          rw [Finset.mem_singleton] at hp
          rw [hp]
          exact hv)
        (fun p hp => by
          rw [Finset.mem_singleton] at hp
          subst hp
          refine ⟨fun hcc => hanrev hcc.1, ?_, ?_⟩
          · rw [hbpos]
            exact Cell.reveal_hidden_revealed hhid
          · intro hcc
            apply hm
            unfold Cell.is_mine at hcc ⊢
            rw [← hval p]
            exact hcc)
        (fun p hp => by
          rw [hoff p (fun hcc => hp (Finset.mem_singleton.2 hcc))])
      rw [hadd, Finset.card_singleton, Nat.cast_one]
  have hsc : StatsConsistent b := by
    obtain ⟨h1, h2, h3⟩ := hinv.1
    refine ⟨?_, ?_, ?_⟩
    · rw [hsf, hflag]
      exact h1
    · rw [hsr, hc, hflag]
      exact h2
    · rw [hsv, hsafe, h3]
  refine ⟨hsc, ?_, fun _ => hbmc⟩
  intro hcl
  rw [hfc, hfca] at hcl
  cases hcl

lemma leftClickStep_inv
    (inner : MinesweeperGame → Position → Except GameLogicError (MinesweeperGame × Finset Position))
    (hic : ∀ h q r, inner h q = .ok r → r.1.config = h.config)
    (hinner : ∀ h q r, EngineInv h → h.first_click = false → inner h q = .ok r →
      EngineInv r.1 ∧ r.1.first_click = false)
    (g : MinesweeperGame) (pos : Position) (sample : List Position)
    (hinv : EngineInv g) (hnd : sample.Nodup)
    (hmem : ∀ m ∈ sample, m ∈ availablePositions g.config pos) :
    ∀ r, leftClickStep inner g pos sample = .ok r →
      EngineInv r.1 ∧ r.1.config = g.config ∧
        (g.first_click = false → r.1.first_click = false) := by
  refine leftClickStep_elim inner g pos sample
    (motive := fun z => ∀ r, z = .ok r → EngineInv r.1 ∧ r.1.config = g.config ∧
      (g.first_click = false → r.1.first_click = false)) ?_ ?_ ?_ ?_ ?_ ?_ ?_ ?_
  · intro _ r h
    cases h
  · intro _ _ r h
    cases h
    exact ⟨hinv, rfl, fun hf => hf⟩
  · intro _ _ _ r h
    cases h
    exact ⟨hinv, rfl, fun hf => hf⟩
  · intro e _ _ _ _ r h
    cases h
  · intro g1 hv hplay hflagged hpl hrev r hr
    obtain ⟨hinv1, hconf1, hfc1, hgs1, hmc1, hst1⟩ :=
      placeOnFirstClick_inv hinv hnd hmem hpl
    have hP := chord_click_invariant inner g1 pos
      (fun h2 => EngineInv h2 ∧ h2.config = g1.config ∧ h2.first_click = false)
      (fun _ => True)
      (fun h2 hh => hh.2.1)
      (fun h2 q r2 hh _ hcl =>
        ⟨(hinner h2 q r2 hh.1 hh.2.2 hcl).1,
         (hic h2 q r2 hcl).trans hh.2.1,
         (hinner h2 q r2 hh.1 hh.2.2 hcl).2⟩)
      (fun _ _ _ _ _ _ => trivial)
      ⟨hinv1, rfl, hfc1⟩
    obtain ⟨hre, hrc, hrf⟩ := hP.1 r hr
    exact ⟨hre, hrc.trans hconf1, fun _ => hrf⟩
  · intro g1 hv hplay hflagged hpl hrev hmine r hr
    cases hr
    obtain ⟨hinv1, hconf1, hfc1, hgs1, hmc1, hst1⟩ :=
      placeOnFirstClick_inv hinv hnd hmem hpl
    have hnofl1 : ¬ (g1.grid pos).is_flagged := by
      unfold Cell.is_flagged
      rw [hst1 pos]
      exact hflagged
    have hhid1 : (g1.grid pos).state = CellState.Hidden :=
      (Cell.hidden_iff_not_revealed_not_flagged _).2 ⟨hrev, hnofl1⟩
    obtain ⟨hcwc, hcwg, hcws, hcwf⟩ := check_win_condition_parts
      { g1 with grid := updateGrid g1.grid pos (g1.grid pos).reveal,
                game_state := GameState.Lost }
    have hin2 : EngineInv (check_win_condition
        { g1 with grid := updateGrid g1.grid pos (g1.grid pos).reveal,
                  game_state := GameState.Lost }) := by
      refine EngineInv_of_eq hcwc hcwg hcws hcwf ?_
      refine EngineInv_update_reveal (a := g1) pos rfl hfc1 rfl rfl ?_ hhid1 rfl rfl ?_ hinv1
      · rw [hconf1]
        exact hv
      · rw [if_pos hmine, add_zero]
    refine ⟨hin2, hcwc.trans hconf1, fun _ => hcwf.trans hfc1⟩
  · intro g1 hv hplay hflagged hpl hrev hmine hzero r hr
    cases hr
    obtain ⟨hinv1, hconf1, hfc1, hgs1, hmc1, hst1⟩ :=
      placeOnFirstClick_inv hinv hnd hmem hpl
    have hv1 : is_valid_position g1.config pos := by
      rw [hconf1]
      exact hv
    obtain ⟨hsmem, hgridchar, hcnt, hrm, hfl, htc, hdfs, hextra⟩ :=
      reveal_empty_area_spec g1 pos hv1
    obtain ⟨hRc, hRgs, hRfc, hRval⟩ := reveal_empty_area_parts g1 pos
    have hmemS : ∀ p ∈ (reveal_empty_area g1 pos).2,
        (g1.grid p).state = CellState.Hidden ∧
        reachZero g1.config.rows g1.config.cols g1.grid pos p :=
      fun p hp => (hsmem p).1 hp
    have hvalidS : ∀ p ∈ (reveal_empty_area g1 pos).2, is_valid_position g1.config p :=
      fun p hp => reachZero_valid hv1 (hmemS p hp).2
    have hnmS : ∀ p ∈ (reveal_empty_area g1 pos).2, ¬ (g1.grid p).is_mine :=
      fun p hp => reachZero_not_mine hmc1 hv1 hzero (hmemS p hp).2
    have hgoff : ∀ p, p ∉ (reveal_empty_area g1 pos).2 →
        (reveal_empty_area g1 pos).1.grid p = g1.grid p := by
      intro p hp
      rw [hgridchar p, if_neg hp]
    have hgon : ∀ p ∈ (reveal_empty_area g1 pos).2,
        (reveal_empty_area g1 pos).1.grid p = (g1.grid p).reveal := by
      intro p hp
      rw [hgridchar p, if_pos hp]
    have hflagcnt : flaggedCount (reveal_empty_area g1 pos).1 = flaggedCount g1 := by
      refine flaggedCount_congr hRc (fun p _ => ?_)
      by_cases hp : p ∈ (reveal_empty_area g1 pos).2
      · rw [hgon p hp]
        exact Cell.reveal_flagged _
      · rw [hgoff p hp]
    have hsafe : revealedSafeCount (reveal_empty_area g1 pos).1 =
        revealedSafeCount g1 + (((reveal_empty_area g1 pos).2.card : Int)) := by
      refine revealedSafeCount_add hRc (reveal_empty_area g1 pos).2 hvalidS ?_ ?_
      · intro p hp
        refine ⟨?_, ?_, ?_⟩
        · intro hcc
          obtain ⟨hr1, _⟩ := hcc
          unfold Cell.is_revealed at hr1
          rw [(hmemS p hp).1] at hr1
          cases hr1
        · rw [hgon p hp]
          exact Cell.reveal_hidden_revealed (hmemS p hp).1
        · intro hcc
          apply hnmS p hp
          unfold Cell.is_mine at hcc ⊢
          rw [← hRval p]
          exact hcc
      · intro p hp
        rw [hgoff p hp]
    have hinvR : EngineInv (reveal_empty_area g1 pos).1 := by
      obtain ⟨h1, h2, h3⟩ := hinv1.1
      refine ⟨⟨?_, ?_, ?_⟩, ?_, fun _ => MineConsistent_congr hRc hRval hmc1⟩
      · rw [hfl, hflagcnt]
        exact h1
      · rw [hrm, hRc, hflagcnt]
        exact h2
      · rw [hcnt, hsafe, h3]
      · intro hcl
        rw [hRfc, hfc1] at hcl
        cases hcl
    obtain ⟨hcwc, hcwg, hcws, hcwf⟩ := check_win_condition_parts
      (reveal_empty_area g1 pos).1
    refine ⟨EngineInv_of_eq hcwc hcwg hcws hcwf hinvR, ?_, ?_⟩
    · exact (hcwc.trans hRc).trans hconf1
    · intro hf
      exact (hcwf.trans hRfc).trans hfc1
  · intro g1 hv hplay hflagged hpl hrev hmine hnzero r hr
    cases hr
    obtain ⟨hinv1, hconf1, hfc1, hgs1, hmc1, hst1⟩ :=
      placeOnFirstClick_inv hinv hnd hmem hpl
    have hnofl1 : ¬ (g1.grid pos).is_flagged := by
      unfold Cell.is_flagged
      rw [hst1 pos]
      exact hflagged
    have hhid1 : (g1.grid pos).state = CellState.Hidden :=
      (Cell.hidden_iff_not_revealed_not_flagged _).2 ⟨hrev, hnofl1⟩
    obtain ⟨hcwc, hcwg, hcws, hcwf⟩ := check_win_condition_parts
      { g1 with grid := updateGrid g1.grid pos (g1.grid pos).reveal,
                stats := { g1.stats with
                  revealed_cells := g1.stats.revealed_cells + 1 } }
    have hin2 : EngineInv (check_win_condition
        { g1 with grid := updateGrid g1.grid pos (g1.grid pos).reveal,
                  stats := { g1.stats with
                    revealed_cells := g1.stats.revealed_cells + 1 } }) := by
      refine EngineInv_of_eq hcwc hcwg hcws hcwf ?_
      refine EngineInv_update_reveal (a := g1) pos rfl hfc1 rfl rfl ?_ hhid1 rfl rfl ?_ hinv1
      · rw [hconf1]
        exact hv
      · rw [if_neg hmine]
    refine ⟨hin2, hcwc.trans hconf1, fun _ => hcwf.trans hfc1⟩

lemma left_click_fuel_inv :
    ∀ (fuel : Nat) (g : MinesweeperGame) (pos : Position) (sample : List Position),
      EngineInv g → sample.Nodup →
      (∀ m ∈ sample, m ∈ availablePositions g.config pos) →
      ∀ r, left_click_fuel fuel g pos sample = .ok r →
        EngineInv r.1 ∧ r.1.config = g.config ∧
          (g.first_click = false → r.1.first_click = false) := by
  intro fuel
  induction fuel with
  | zero =>
    intro g pos sample hinv hnd hmem r h
    refine leftClickStep_inv (fun h2 _ => .ok (h2, ∅)) ?_ ?_ g pos sample hinv hnd hmem r h
    · intro h2 q r2 hr2
      cases hr2
      rfl
    · intro h2 q r2 hE hf hr2
      cases hr2
      exact ⟨hE, hf⟩
  | succ n ih =>
    intro g pos sample hinv hnd hmem r h
    refine leftClickStep_inv (fun h2 p => left_click_fuel n h2 p []) ?_ ?_
      g pos sample hinv hnd hmem r h
    · intro h2 q r2 hr2
      exact left_click_fuel_config n h2 q [] r2 hr2
    · intro h2 q r2 hE hf hr2
      obtain ⟨ha, hb, hcc⟩ := ih h2 q [] hE List.nodup_nil
        (fun m hm => absurd hm (List.not_mem_nil m)) r2 hr2
      exact ⟨ha, hcc hf⟩

lemma stepL_inv {g : MinesweeperGame} {pos : Position} {sample : List Position}
    (hinv : EngineInv g) (hs : SampleOK g pos sample) :
    EngineInv (stepL g pos sample) := by
  unfold stepL
  cases h : left_click g pos sample with
  | ok r => exact (left_click_fuel_inv 2 g pos sample hinv hs.1 hs.2 r h).1
  | error e => exact hinv

lemma Cell.toggle_flag_not_revealed {c : Cell} (h : ¬ c.is_revealed) :
    ¬ c.toggle_flag.is_revealed := by
  unfold Cell.is_revealed at h ⊢
  unfold Cell.toggle_flag
  split_ifs with h1 h2
  · simp
  · simp
  · exact h

lemma EngineInv_toggle {a b : MinesweeperGame} (pos : Position)
    (hc : b.config = a.config) (hf : b.first_click = a.first_click)
    (hg : b.grid = updateGrid a.grid pos (a.grid pos).toggle_flag)
    (hv : is_valid_position a.config pos)
    (hnr : ¬ (a.grid pos).is_revealed)
    (hstats : (¬ (a.grid pos).is_flagged ∧
        b.stats.flagged_cells = a.stats.flagged_cells + 1 ∧
        b.stats.remaining_mines = a.stats.remaining_mines - 1 ∧
        b.stats.revealed_cells = a.stats.revealed_cells) ∨
      ((a.grid pos).is_flagged ∧
        b.stats.flagged_cells = a.stats.flagged_cells - 1 ∧
        b.stats.remaining_mines = a.stats.remaining_mines + 1 ∧
        b.stats.revealed_cells = a.stats.revealed_cells))
    (hinv : EngineInv a) : EngineInv b := by
  have hbpos : b.grid pos = (a.grid pos).toggle_flag := by
    rw [hg, updateGrid_self]
  have hoffp : ∀ p, p ≠ pos → b.grid p = a.grid p := by
    intro p hp
    rw [hg, updateGrid_ne _ _ _ _ hp]
  have hvalp : ∀ p, (b.grid p).value = (a.grid p).value := by
    intro p
    by_cases hp : p = pos
    · subst hp
      rw [hbpos, Cell.toggle_flag_value]
    · rw [hoffp p hp]
  have hbmc : b.first_click = false → MineConsistent b := by
    intro hcl
    rw [hf] at hcl
    exact MineConsistent_congr hc hvalp (hinv.2.2 hcl)
  have hbnr : ∀ p, ¬ (a.grid p).is_revealed → ¬ (b.grid p).is_revealed := by
    intro p hpa hcc
    by_cases hp : p = pos
    · subst hp
      rw [hbpos] at hcc
      exact Cell.toggle_flag_not_revealed hpa hcc
    · rw [hoffp p hp] at hcc
      exact hpa hcc
  have hpreb : b.first_click = true → PreFirstClick b := by
    intro hcl
    rw [hf] at hcl
    have hpre := hinv.2.1 hcl
    intro p
    exact ⟨by rw [hvalp p]; exact (hpre p).1, hbnr p (hpre p).2⟩
  have hsafe : revealedSafeCount b = revealedSafeCount a := by
    refine revealedSafeCount_congr hc (fun p _ => ?_)
    by_cases hp : p = pos
    · subst hp
      exact iff_of_false (fun hcc => hbnr p hnr hcc.1) (fun hcc => hnr hcc.1)
    · rw [hoffp p hp]
  obtain ⟨hs1, hs2, hs3⟩ := hinv.1
  rcases hstats with ⟨hwf, hsf, hsr, hsv⟩ | ⟨hwf, hsf, hsr, hsv⟩
  · have hhid : (a.grid pos).state = CellState.Hidden :=
      (Cell.hidden_iff_not_revealed_not_flagged _).2 ⟨hnr, hwf⟩
    have hflagb : (b.grid pos).is_flagged := by
      unfold Cell.is_flagged
      rw [hbpos]
      unfold Cell.toggle_flag
      rw [hhid]
      rfl
    have hflagcnt : flaggedCount b = flaggedCount a + 1 :=
      flaggedCount_add hc pos hv hwf hflagb
        (fun p hp => by rw [hoffp p hp])
    refine ⟨⟨?_, ?_, ?_⟩, hpreb, hbmc⟩
    · rw [hsf, hs1, hflagcnt]
    · rw [hsr, hs2, hc, hflagcnt]
      ring
    · rw [hsv, hs3, hsafe]
  · have hflagb : ¬ (b.grid pos).is_flagged := by
      unfold Cell.is_flagged at hwf ⊢
      rw [hbpos]
      unfold Cell.toggle_flag
      rw [if_neg (by rw [hwf]; intro hcc; cases hcc), if_pos hwf]
      intro hcc
      cases hcc
    have hflagcnt : flaggedCount a = flaggedCount b + 1 :=
      flaggedCount_add hc.symm pos (by rw [hc]; exact hv) hflagb hwf
        (fun p hp => by rw [hoffp p hp])
    refine ⟨⟨?_, ?_, ?_⟩, hpreb, hbmc⟩
    · rw [hsf, hs1]
      omega
    · rw [hsr, hs2, hc]
      omega
    · rw [hsv, hs3, hsafe]

lemma right_click_inv {g : MinesweeperGame} {pos : Position}
    (hinv : EngineInv g) :
    ∀ r, right_click g pos = .ok r → EngineInv r.1 := by
  intro r h
  unfold right_click at h
  dsimp only at h
  split_ifs at h with h1 h2 h3 hwf
  · cases h
    exact hinv
  · cases h
    exact hinv
  · cases h
    exact EngineInv_toggle (a := g) pos rfl rfl rfl h1 h3
      (Or.inr ⟨hwf, rfl, rfl, rfl⟩) hinv
  · cases h
    exact EngineInv_toggle (a := g) pos rfl rfl rfl h1 h3
      (Or.inl ⟨hwf, rfl, rfl, rfl⟩) hinv


lemma reveal_all_mines_inv (g : MinesweeperGame) (hinv : EngineInv g) :
    EngineInv (reveal_all_mines g).1 := by
  obtain ⟨hc, hgs, hf, hst, hlist, hgrid⟩ :=
    revealMinesFold_spec (positionsList g.config) g []
  have hgridc : ∀ p, (reveal_all_mines g).1.grid p =
      if p ∈ positionsList g.config ∧ (g.grid p).is_mine
      then (g.grid p).reveal else g.grid p := hgrid
  have hcc : (reveal_all_mines g).1.config = g.config := hc
  have hfc : (reveal_all_mines g).1.first_click = g.first_click := hf
  have hstats : (reveal_all_mines g).1.stats = g.stats := hst
  have hval : ∀ p, ((reveal_all_mines g).1.grid p).value = (g.grid p).value := by
    intro p
    rw [hgridc p]
    split_ifs with hp
    · rw [Cell.reveal_value]
    · rfl
  have hflagcnt : flaggedCount (reveal_all_mines g).1 = flaggedCount g := by
    refine flaggedCount_congr hcc (fun p _ => ?_)
    rw [hgridc p]
    split_ifs with hp
    · exact Cell.reveal_flagged _
    · exact Iff.rfl
  have hsafe : revealedSafeCount (reveal_all_mines g).1 = revealedSafeCount g := by
    refine revealedSafeCount_congr hcc (fun p _ => ?_)
    by_cases hp : p ∈ positionsList g.config ∧ (g.grid p).is_mine
    · refine iff_of_false ?_ (fun hcx => hcx.2 hp.2)
      intro hcx
      apply hcx.2
      unfold Cell.is_mine at hp ⊢
      rw [hval p]
      exact hp.2
    · rw [hgridc p, if_neg hp]
  obtain ⟨hs1, hs2, hs3⟩ := hinv.1
  refine ⟨⟨?_, ?_, ?_⟩, ?_, ?_⟩
  · rw [hstats, hflagcnt]
    exact hs1
  · rw [hstats, hcc, hflagcnt]
    exact hs2
  · rw [hstats, hsafe]
    exact hs3
  · intro hcl
    rw [hfc] at hcl
    have hpre := hinv.2.1 hcl
    intro p
    have hnm : ¬ (g.grid p).is_mine := by
      intro hm
      unfold Cell.is_mine MINE_VALUE at hm
      rw [(hpre p).1] at hm
      omega
    have heq : (reveal_all_mines g).1.grid p = g.grid p := by
      rw [hgridc p, if_neg (fun hcx => hnm hcx.2)]
    rw [heq]
    exact hpre p
  · intro hcl
    rw [hfc] at hcl
    exact MineConsistent_congr hcc hval (hinv.2.2 hcl)

lemma mkGame_inv (cfg : GameConfig) : EngineInv (mkGame cfg) := by
  have hcell : ∀ p, (mkGame cfg).grid p = { value := 0, state := CellState.Hidden } :=
    fun _ => rfl
  have hflagcnt : flaggedCount (mkGame cfg) = 0 := by
    unfold flaggedCount
    have hfe : (posFinset (mkGame cfg).config).filter
        (fun p => ((mkGame cfg).grid p).is_flagged) = ∅ := by
      rw [Finset.filter_eq_empty_iff]
      intro p _
      rw [hcell p]
      intro hcx
      cases hcx
    rw [hfe, Finset.card_empty, Nat.cast_zero]
  have hsafe : revealedSafeCount (mkGame cfg) = 0 := by
    unfold revealedSafeCount
    have hfe : (posFinset (mkGame cfg).config).filter
        (fun p => ((mkGame cfg).grid p).is_revealed ∧
          ¬ ((mkGame cfg).grid p).is_mine) = ∅ := by
      rw [Finset.filter_eq_empty_iff]
      intro p _
      intro hcx
      have hcx1 := hcx.1
      rw [hcell p] at hcx1
      cases hcx1
    rw [hfe, Finset.card_empty, Nat.cast_zero]
  refine ⟨⟨?_, ?_, ?_⟩, ?_, ?_⟩
  · rw [hflagcnt]
    rfl
  · rw [hflagcnt]
    show cfg.mines = cfg.mines - 0
    omega
  · rw [hsafe]
    rfl
  · intro _
    intro p
    rw [hcell p]
    exact ⟨rfl, fun hcx => by cases hcx⟩
  · intro hcl
    cases hcl

lemma applyOps_inv : ∀ (ops : List Op) (g : MinesweeperGame),
    EngineInv g → OpsOK g ops → EngineInv (applyOps g ops) := by
  intro ops
  induction ops with
  | nil =>
    intro g hinv _
    exact hinv
  | cons op rest ih =>
    intro g hinv hok
    cases op with
    | lclick pos sample =>
      obtain ⟨hs, hrest⟩ := hok
      show EngineInv (applyOps (stepL g pos sample) rest)
      exact ih _ (stepL_inv hinv hs) hrest
    | rclick pos =>
      show EngineInv (applyOps (stepR g pos) rest)
      refine ih _ ?_ hok
      unfold stepR
      cases h : right_click g pos with
      | ok r => exact right_click_inv hinv r h
      | error e => exact hinv
    | revealAll =>
      show EngineInv (applyOps (reveal_all_mines g).1 rest)
      exact ih _ (reveal_all_mines_inv g hinv) hok

lemma left_click_mine_loss {g : MinesweeperGame} {pos : Position}
    {sample : List Position}
    (hfc : g.first_click = false) (hm : (g.grid pos).is_mine)
    (hnr : ¬ (g.grid pos).is_revealed) :
    ∀ g2 S, left_click g pos sample = .ok (g2, S) → g2.stats = g.stats := by
  have hkey : ∀ r, left_click g pos sample = .ok r → r.1.stats = g.stats := by
    show ∀ r, leftClickStep (fun h p => left_click_fuel 1 h p []) g pos sample = .ok r →
      r.1.stats = g.stats
    refine leftClickStep_elim (fun h p => left_click_fuel 1 h p []) g pos sample
      (motive := fun z => ∀ r, z = .ok r → r.1.stats = g.stats) ?_ ?_ ?_ ?_ ?_ ?_ ?_ ?_
    · intro _ r h
      cases h
    · intro _ _ r h
      cases h
      rfl
    · intro _ _ _ r h
      cases h
      rfl
    · intro e _ _ _ _ r h
      cases h
    · intro g1 _ _ _ hpl hrev r h
      obtain ⟨_, _, _, _, hcase⟩ := placeOnFirstClick_ok hpl
      rcases hcase with ⟨_, hg1g⟩ | ⟨hfct, _⟩
      · subst hg1g
        exact absurd hrev hnr
      · rw [hfct] at hfc
        cases hfc
    · intro g1 _ _ _ hpl _ _ r h
      cases h
      obtain ⟨_, _, hstats, _, _⟩ := placeOnFirstClick_ok hpl
      exact (check_win_condition_parts _).2.2.1.trans hstats
    · intro g1 _ _ _ hpl _ hmine _ r h
      obtain ⟨_, _, _, _, hcase⟩ := placeOnFirstClick_ok hpl
      rcases hcase with ⟨_, hg1g⟩ | ⟨hfct, _⟩
      · subst hg1g
        exact absurd hm hmine
      · rw [hfct] at hfc
        cases hfc
    · intro g1 _ _ _ hpl _ hmine _ r h
      obtain ⟨_, _, _, _, hcase⟩ := placeOnFirstClick_ok hpl
      rcases hcase with ⟨_, hg1g⟩ | ⟨hfct, _⟩
      · subst hg1g
        exact absurd hm hmine
      · rw [hfct] at hfc
        cases hfc
  intro g2 S h
  exact hkey (g2, S) h

/-- `C10`: in every engine state reachable from a fresh game by any sequence
of `left_click`, `right_click` and `reveal_all_mines` calls (each click
receiving a mine sample with the properties `random.sample` guarantees),
`stats.flagged_cells` equals the number of `Flagged` cells,
`stats.remaining_mines` equals `config.mines` minus `stats.flagged_cells`,
and `stats.revealed_cells` equals the number of `Revealed` non-mine cells;
in particular `reveal_all_mines` never changes `revealed_cells`, and a
losing `left_click` directly on a mine cell leaves all statistics
unchanged. -/
theorem C10_stats_invariant (cfg : GameConfig) (ops : List Op)
    (hops : OpsOK (mkGame cfg) ops) :
    ((applyOps (mkGame cfg) ops).stats.flagged_cells =
      flaggedCount (applyOps (mkGame cfg) ops) ∧
     (applyOps (mkGame cfg) ops).stats.remaining_mines =
      (applyOps (mkGame cfg) ops).config.mines -
        (applyOps (mkGame cfg) ops).stats.flagged_cells ∧
     (applyOps (mkGame cfg) ops).stats.revealed_cells =
      revealedSafeCount (applyOps (mkGame cfg) ops)) ∧
    (∀ h : MinesweeperGame,
      (reveal_all_mines h).1.stats.revealed_cells = h.stats.revealed_cells) ∧
    (∀ (h : MinesweeperGame) (pos : Position) (sample : List Position)
      (g2 : MinesweeperGame) (S : Finset Position),
      h.first_click = false → (h.grid pos).is_mine →
      ¬ (h.grid pos).is_revealed →
      left_click h pos sample = .ok (g2, S) →
      g2.stats.revealed_cells = h.stats.revealed_cells) := by
  have hinv := applyOps_inv ops (mkGame cfg) (mkGame_inv cfg) hops
  obtain ⟨h1, h2, h3⟩ := hinv.1
  refine ⟨⟨h1, ?_, h3⟩, ?_, ?_⟩
  · rw [h1, h2]
  · intro h
    exact congrArg GameStats.revealed_cells
      (revealMinesFold_spec (positionsList h.config) h []).2.2.2.1
  · intro h pos sample g2 S hfc hm hnr hok
    exact congrArg GameStats.revealed_cells (left_click_mine_loss hfc hm hnr g2 S hok)

/-- `C10` witness: on a 3x3 board, flagging the mine square, opening a
corner (placing the single mine at (2,2) and winning) and then revealing
all mines keeps all three statistics equations. -/
theorem C10_stats_invariant_witness :
    OpsOK (mkGame ⟨3, 3, 1⟩) statsOps ∧
    (((applyOps (mkGame ⟨3, 3, 1⟩) statsOps).stats.flagged_cells =
      flaggedCount (applyOps (mkGame ⟨3, 3, 1⟩) statsOps) ∧
     (applyOps (mkGame ⟨3, 3, 1⟩) statsOps).stats.remaining_mines =
      (applyOps (mkGame ⟨3, 3, 1⟩) statsOps).config.mines -
        (applyOps (mkGame ⟨3, 3, 1⟩) statsOps).stats.flagged_cells ∧
     (applyOps (mkGame ⟨3, 3, 1⟩) statsOps).stats.revealed_cells =
      revealedSafeCount (applyOps (mkGame ⟨3, 3, 1⟩) statsOps)) ∧
    (∀ h : MinesweeperGame,
      (reveal_all_mines h).1.stats.revealed_cells = h.stats.revealed_cells) ∧
    (∀ (h : MinesweeperGame) (pos : Position) (sample : List Position)
      (g2 : MinesweeperGame) (S : Finset Position),
      h.first_click = false → (h.grid pos).is_mine →
      ¬ (h.grid pos).is_revealed →
      left_click h pos sample = .ok (g2, S) →
      g2.stats.revealed_cells = h.stats.revealed_cells)) :=
  ⟨⟨by decide, trivial⟩,
    C10_stats_invariant ⟨3, 3, 1⟩ statsOps ⟨by decide, trivial⟩⟩

end Minesweeper
